import Mathlib

/-!
# Dungeon crawler core (`logic.cpp`): a shallow embedding

The map is the `char**` of the source, modelled as a list of rows of
characters.  Every array access is checked: reading or writing outside the
allocated storage is undefined behaviour in C++ and makes the embedded
function return `none`.  Coordinates and dimensions are integers (maps are far
smaller than the range of `int`); the treasure counter, which a player may hold
at any value of its type, is incremented with the wrap-around of a 32-bit `int`.

The header `logic.h` (tile characters, status codes, the `Player` record) is
not part of the sources; its constants are a parameter `Consts` of every
function that uses them.
-/

namespace Dungeon

/-- Modelled from the spec: the `Player` record of `logic.h` (absent from the
sources), a position and the count of collected treasure. -/
structure Player where
  row : Int
  col : Int
  treasure : Int
deriving DecidableEq, Repr

/-- The constants of `logic.h` used by `logic.cpp`; the header is absent from
the sources, so its values are a parameter. -/
structure Consts where
  TILE_OPEN : Char
  TILE_PLAYER : Char
  TILE_TREASURE : Char
  TILE_AMULET : Char
  TILE_MONSTER : Char
  TILE_PILLAR : Char
  TILE_DOOR : Char
  TILE_EXIT : Char
  STATUS_STAY : Int
  STATUS_MOVE : Int
  STATUS_TREASURE : Int
  STATUS_AMULET : Int
  STATUS_LEAVE : Int
  STATUS_ESCAPE : Int
deriving DecidableEq, Repr

/-- The eight tile characters are pairwise different and `TILE_OPEN` is not the
NUL character (so that the assignment used as a condition at the end of
`doPlayerMove` is true). -/
def Consts.WF (k : Consts) : Prop :=
  [k.TILE_OPEN, k.TILE_PLAYER, k.TILE_TREASURE, k.TILE_AMULET, k.TILE_MONSTER,
    k.TILE_PILLAR, k.TILE_DOOR, k.TILE_EXIT].Nodup ∧ k.TILE_OPEN ≠ Char.ofNat 0

instance (k : Consts) : Decidable k.WF := by
  unfold Consts.WF; infer_instance

/-- A sample instance of the header constants, used to evaluate the functions
on concrete maps. -/
def sampleConsts : Consts :=
  ⟨'-', 'o', '$', '@', 'M', '+', '?', '!', 0, 1, 2, 3, 4, 5⟩

/-- The dungeon map: the rows of a `char**`. -/
abbrev Grid := List (List Char)

/-- The expression `map[r][c]` read; `none` outside the allocated storage. -/
def readCell (map : Grid) (r c : Int) : Option Char :=
  if 0 ≤ r ∧ 0 ≤ c then
    match map[r.toNat]? with
    | some cells => cells[c.toNat]?
    | none => none
  else none

/-- The assignment `map[r][c] = v`; `none` outside the allocated storage. -/
def writeCell (map : Grid) (r c : Int) (v : Char) : Option Grid :=
  if 0 ≤ r ∧ 0 ≤ c then
    match map[r.toNat]? with
    | some cells =>
      if c.toNat < cells.length then some (map.set r.toNat (cells.set c.toNat v)) else none
    | none => none
  else none

/-- A map with `maxRow` rows of `maxCol` cells each. -/
def Rect (maxRow maxCol : Int) (map : Grid) : Prop :=
  (map.length : Int) = maxRow ∧ ∀ cells ∈ map, (cells.length : Int) = maxCol

instance (maxRow maxCol : Int) (map : Grid) : Decidable (Rect maxRow maxCol map) := by
  unfold Rect; infer_instance

/-- The position `(r, c)` lies in `[0, maxRow) x [0, maxCol)`. -/
def InBounds (maxRow maxCol r c : Int) : Prop :=
  0 ≤ r ∧ r < maxRow ∧ 0 ≤ c ∧ c < maxCol

instance (maxRow maxCol r c : Int) : Decidable (InBounds maxRow maxCol r c) := by
  unfold InBounds; infer_instance

/-- A counting `for` loop: at most `n` iterations, the loop variable starting at
`i` and changing by `step` after each one.  The body returns the new state and
whether it executed `break`. -/
def forLoop {σ : Type} (step : Int) (body : Int → σ → Option (σ × Bool)) :
    Nat → Int → σ → Option σ
  | 0, _, s => some s
  | n + 1, i, s =>
    match body i s with
    | none => none
    | some (s1, true) => some s1
    | some (s1, false) => forLoop step body n (i + step) s1

/-- The loop `for (int i = 0; i < n; i++)` with a body that never breaks. -/
def forRange {σ : Type} (n : Int) (body : Int → σ → Option σ) (s : σ) : Option σ :=
  forLoop 1 (fun i t => (body i t).map (fun t1 => (t1, false))) n.toNat 0 s

/-! ## createMap, resizeMap -/

/-- Source `createMap`: allocate `maxRow` rows of `maxCol` cells (fresh storage
is modelled as NUL cells; a negative array length makes `new` fail), then set
every cell to `TILE_OPEN`. -/
def createMap (k : Consts) (maxRow maxCol : Int) : Option Grid :=
  if maxRow < 0 ∨ (0 < maxRow ∧ maxCol < 0) then none
  else
    let ary : Grid := List.replicate maxRow.toNat (List.replicate maxCol.toNat (Char.ofNat 0))
    forRange maxRow (fun i a =>
      forRange maxCol (fun j b => writeCell b i j k.TILE_OPEN) a) ary

/-- Source `deleteMap`: releases the storage; it has no effect on the values of
the embedding. -/
def deleteMap (_map : Grid) (_maxRow : Int) : Unit := ()

/-- The copy loops of `resizeMap`:
`for i < maxRow, for j < maxCol: newmap[i + dr][j + dc] = map[i][j]`. -/
def copyInto (map : Grid) (maxRow maxCol dr dc : Int) (newmap : Grid) : Option Grid :=
  forRange maxRow (fun i a =>
    forRange maxCol (fun j b =>
      match readCell map i j with
      | none => none
      | some v => writeCell b (i + dr) (j + dc) v) a) newmap

/-- The rewrite loop of `resizeMap`:
`for i < maxRow * 2, for j < maxCol * 2: if (newmap[i][j] == 'o') newmap[i][j] = '-'`. -/
def rewriteO (maxRow maxCol : Int) (newmap : Grid) : Option Grid :=
  forRange (maxRow * 2) (fun i a =>
    forRange (maxCol * 2) (fun j b =>
      match readCell b i j with
      | none => none
      | some v => if v = 'o' then writeCell b i j '-' else some b) a) newmap

/-- Source `resizeMap`: returns the new map together with the updated
`maxRow` and `maxCol` (reference parameters of the source). -/
def resizeMap (k : Consts) (map : Grid) (maxRow maxCol : Int) : Option (Grid × Int × Int) :=
  match createMap k (2 * maxRow) (2 * maxCol) with
  | none => none
  | some newmap =>
    -- B
    match copyInto map maxRow maxCol maxRow 0 newmap with
    | none => none
    | some nB =>
      -- C
      match copyInto map maxRow maxCol 0 maxCol nB with
      | none => none
      | some nC =>
        -- D
        match copyInto map maxRow maxCol maxRow maxCol nC with
        | none => none
        | some nD =>
          match rewriteO maxRow maxCol nD with
          | none => none
          | some nF =>
            -- A
            match copyInto map maxRow maxCol 0 0 nF with
            | none => none
            | some nA =>
              let _ := deleteMap map maxRow
              some (nA, maxRow * 2, maxCol * 2)

/-! ## doPlayerMove -/

/-- The value stored in a 32-bit `int` when the exact result of an arithmetic
operation is `x`: two's-complement wrap-around, as on the machines the game is
built for (2147483647 + 1 is stored as -2147483648). -/
def wrapInt (x : Int) : Int :=
  (x + 2147483648) % 4294967296 - 2147483648

/-- The outcome of `doPlayerMove`: the map, the player and the two reference
parameters after the call, and the returned status. -/
structure MoveResult where
  map : Grid
  player : Player
  nextRow : Int
  nextCol : Int
  status : Int
deriving DecidableEq, Repr

/-- The four statements shared by every accepted branch of `doPlayerMove`:
`map[player.row][player.col] = TILE_OPEN; map[nextRow][nextCol] = TILE_PLAYER;
player.row = nextRow; player.col = nextCol; return status`. -/
def stepOnto (k : Consts) (map : Grid) (player : Player) (nextRow nextCol status : Int) :
    Option MoveResult :=
  match writeCell map player.row player.col k.TILE_OPEN with
  | none => none
  | some m1 =>
    match writeCell m1 nextRow nextCol k.TILE_PLAYER with
    | none => none
    | some m2 => some ⟨m2, ⟨nextRow, nextCol, player.treasure⟩, nextRow, nextCol, status⟩

/-- Source `doPlayerMove`.  The map is not modified between the successive
tests of `map[nextRow][nextCol]`, so the tile is read once.  The last test is
the assignment `map[nextRow][nextCol] = TILE_OPEN`, true when `TILE_OPEN` is
not NUL; otherwise the function falls through to `return -1`.  The statement
`player.treasure += 1` is 32-bit `int` arithmetic. -/
def doPlayerMove (k : Consts) (map : Grid) (maxRow maxCol : Int) (player : Player)
    (nextRow nextCol : Int) : Option MoveResult :=
  if nextRow ≥ maxRow ∨ nextCol ≥ maxCol then
    some ⟨map, player, nextRow, nextCol, k.STATUS_STAY⟩
  else if nextRow < 0 ∨ nextCol < 0 then
    some ⟨map, player, nextRow, nextCol, k.STATUS_STAY⟩
  else
    match readCell map nextRow nextCol with
    | none => none
    | some t =>
      if t = k.TILE_PILLAR ∨ t = k.TILE_MONSTER then
        some ⟨map, player, nextRow, nextCol, k.STATUS_STAY⟩
      else if t = k.TILE_TREASURE then
        stepOnto k map ⟨player.row, player.col, wrapInt (player.treasure + 1)⟩ nextRow nextCol
          k.STATUS_TREASURE
      else if t = k.TILE_AMULET then
        stepOnto k map player nextRow nextCol k.STATUS_AMULET
      else if t = k.TILE_DOOR then
        stepOnto k map player nextRow nextCol k.STATUS_LEAVE
      else if t = k.TILE_EXIT then
        if player.treasure < 1 then
          some ⟨map, player, nextRow, nextCol, k.STATUS_STAY⟩
        else
          stepOnto k map player nextRow nextCol k.STATUS_ESCAPE
      else
        match writeCell map nextRow nextCol k.TILE_OPEN with
        | none => none
        | some m0 =>
          if k.TILE_OPEN ≠ Char.ofNat 0 then
            stepOnto k m0 player nextRow nextCol k.STATUS_MOVE
          else
            some ⟨m0, player, nextRow, nextCol, -1⟩

/-! ## doMonsterAttack -/

/-- The body shared by the four scanning loops of `doMonsterAttack`, at the
cell `(r, c)` with `(tr, tc)` the neighbour one step back toward the player:
`if (map[r][c] == TILE_PILLAR) break;
 if (map[r][c] == TILE_MONSTER) { map[r][c] = TILE_OPEN; map[tr][tc] = TILE_MONSTER; }`. -/
def scanCell (k : Consts) (r c tr tc : Int) (map : Grid) : Option (Grid × Bool) :=
  match readCell map r c with
  | none => none
  | some t =>
    if t = k.TILE_PILLAR then some (map, true)
    else if t = k.TILE_MONSTER then
      match writeCell map r c k.TILE_OPEN with
      | none => none
      | some m1 =>
        match writeCell m1 tr tc k.TILE_MONSTER with
        | none => none
        | some m2 => some (m2, false)
    else some (map, false)

/-- The outcome of `doMonsterAttack`: the map and the player after the call,
and the returned boolean. -/
structure AttackResult where
  map : Grid
  player : Player
  caught : Bool
deriving DecidableEq, Repr

/-- Source `doMonsterAttack`: the four scans in the order up, down, left,
right, then the test of the player's tile. -/
def doMonsterAttack (k : Consts) (map : Grid) (maxRow maxCol : Int) (player : Player) :
    Option AttackResult :=
  -- check up: for (int i = player.row; i >= 0; i--)
  match forLoop (-1) (fun i m => scanCell k i player.col (i + 1) player.col m)
      (player.row + 1).toNat player.row map with
  | none => none
  | some m1 =>
    -- check down: for (int i = player.row; i < maxRow; i++)
    match forLoop 1 (fun i m => scanCell k i player.col (i - 1) player.col m)
        (maxRow - player.row).toNat player.row m1 with
    | none => none
    | some m2 =>
      -- check left: for (int i = player.col; i >= 0; i--)
      match forLoop (-1) (fun i m => scanCell k player.row i player.row (i + 1) m)
          (player.col + 1).toNat player.col m2 with
      | none => none
      | some m3 =>
        -- check right: for (int i = player.col; i < maxCol; i++)
        match forLoop 1 (fun i m => scanCell k player.row i player.row (i - 1) m)
            (maxCol - player.col).toNat player.col m3 with
        | none => none
        | some m4 =>
          match readCell m4 player.row player.col with
          | none => none
          | some t => some ⟨m4, player, decide (t = k.TILE_MONSTER)⟩

/-! ## Predicates used by the statements -/

/-- Exactly one cell holds the player marker, and it is the player's cell. -/
def MarkerAt (k : Consts) (map : Grid) (player : Player) : Prop :=
  readCell map player.row player.col = some k.TILE_PLAYER ∧
    ∀ r c, readCell map r c = some k.TILE_PLAYER → r = player.row ∧ c = player.col

/-- The tile read at a position given as a pair. -/
def readAt (map : Grid) (p : Int × Int) : Option Char :=
  readCell map p.1 p.2

/-- The body of a scanning loop of `doMonsterAttack` in general form: `cell i`
is the position visited when the loop variable is `i`, and the neighbour toward
the player is the position visited one iteration earlier, `cell (i - step)`. -/
def rayBody (k : Consts) (cell : Int → Int × Int) (step : Int) (i : Int) (m : Grid) :
    Option (Grid × Bool) :=
  scanCell k (cell i).1 (cell i).2 (cell (i - step)).1 (cell (i - step)).2 m

/-- Positions of the player's column, indexed by the row. -/
def colCell (player : Player) (i : Int) : Int × Int := (i, player.col)

/-- Positions of the player's row, indexed by the column. -/
def rowCell (player : Player) (i : Int) : Int × Int := (player.row, i)

/-- The upward scan of `doMonsterAttack` in general form. -/
def scanUp (k : Consts) (player : Player) (map : Grid) : Option Grid :=
  forLoop (-1) (rayBody k (colCell player) (-1)) (player.row + 1).toNat player.row map

/-- The downward scan of `doMonsterAttack` in general form. -/
def scanDown (k : Consts) (maxRow : Int) (player : Player) (map : Grid) : Option Grid :=
  forLoop 1 (rayBody k (colCell player) 1) (maxRow - player.row).toNat player.row map

/-- The leftward scan of `doMonsterAttack` in general form. -/
def scanLeft (k : Consts) (player : Player) (map : Grid) : Option Grid :=
  forLoop (-1) (rayBody k (rowCell player) (-1)) (player.col + 1).toNat player.col map

/-- The rightward scan of `doMonsterAttack` in general form. -/
def scanRight (k : Consts) (maxCol : Int) (player : Player) (map : Grid) : Option Grid :=
  forLoop 1 (rayBody k (rowCell player) 1) (maxCol - player.col).toNat player.col map

/-- The marker invariant can be checked by looking at the allocated cells only. -/
instance (k : Consts) (map : Grid) (player : Player) : Decidable (MarkerAt k map player) :=
  decidable_of_iff
    (readCell map player.row player.col = some k.TILE_PLAYER ∧
      ∀ i ∈ List.range map.length, ∀ j ∈ List.range (map[i]?.getD []).length,
        readCell map i j = some k.TILE_PLAYER → (i : Int) = player.row ∧ (j : Int) = player.col)
    (by
      unfold MarkerAt
      constructor
      · rintro ⟨h1, h2⟩
        refine ⟨h1, ?_⟩
        intro r c hrc
        have hpos : 0 ≤ r ∧ 0 ≤ c := by
          by_contra hneg
          simp [readCell, hneg] at hrc
        have hrc1 := hrc
        simp only [readCell, if_pos hpos] at hrc1
        cases hrow : map[r.toNat]? with
        | none => simp [hrow] at hrc1
        | some cells =>
          simp only [hrow] at hrc1
          have hr : r.toNat < map.length := (List.getElem?_eq_some.mp hrow).1
          have hc : c.toNat < cells.length := (List.getElem?_eq_some.mp hrc1).1
          have e1 : ((r.toNat : Nat) : Int) = r := Int.toNat_of_nonneg hpos.1
          have e2 : ((c.toNat : Nat) : Int) = c := Int.toNat_of_nonneg hpos.2
          have := h2 r.toNat (List.mem_range.mpr hr) c.toNat
            (by rw [hrow]; exact List.mem_range.mpr hc) (by rw [e1, e2]; exact hrc)
          rw [e1, e2] at this
          exact this
      · rintro ⟨h1, h2⟩
        exact ⟨h1, fun i _ j _ h => h2 i j h⟩)

/-- The four directions in which `doMonsterAttack` scans. -/
inductive Dir where
  | up
  | down
  | left
  | right
deriving DecidableEq, Repr

/-- The row change of one step away from the player. -/
def Dir.dRow : Dir → Int
  | .up => -1
  | .down => 1
  | .left => 0
  | .right => 0

/-- The column change of one step away from the player. -/
def Dir.dCol : Dir → Int
  | .up => 0
  | .down => 0
  | .left => -1
  | .right => 1

/-- The cell of the ray of direction `dir` at distance `d` from the player;
distance 0 is the player's own cell. -/
def rayCell (player : Player) (dir : Dir) (d : Int) : Int × Int :=
  (player.row + d * dir.dRow, player.col + d * dir.dCol)

/-- The six status codes are pairwise different and none of them is the value
-1 that `doPlayerMove` returns when it falls through all its tests. -/
def Consts.StatusWF (k : Consts) : Prop :=
  [k.STATUS_STAY, k.STATUS_MOVE, k.STATUS_TREASURE, k.STATUS_AMULET, k.STATUS_LEAVE,
    k.STATUS_ESCAPE, -1].Nodup

instance (k : Consts) : Decidable k.StatusWF := by
  unfold Consts.StatusWF; infer_instance

/-- A sequence of calls of `doPlayerMove`, one for each candidate of the list,
each call working on the map and the player left by the previous one; the
results of the calls in order. -/
def playMoves (k : Consts) (maxRow maxCol : Int) :
    Grid → Player → List (Int × Int) → Option (List MoveResult)
  | _, _, [] => some []
  | map, player, cand :: rest =>
    match doPlayerMove k map maxRow maxCol player cand.1 cand.2 with
    | none => none
    | some res =>
      match playMoves k maxRow maxCol res.map res.player rest with
      | none => none
      | some results => some (res :: results)

/-- The treasure count along the results of a sequence of calls, starting from
the count `t`: after each call it is at least the count before the call, one
more when the call returned `STATUS_TREASURE` and the same otherwise. -/
def TreasureSteps (k : Consts) : Int → List MoveResult → Prop
  | _, [] => True
  | t, res :: rest =>
    t ≤ res.player.treasure ∧
    (res.status = k.STATUS_TREASURE → res.player.treasure = t + 1) ∧
    (res.status ≠ k.STATUS_TREASURE → res.player.treasure = t) ∧
    TreasureSteps k res.player.treasure rest

/-- The treasure count along the results of a sequence of calls when the counter
is a 32-bit `int`, starting from the count `t`: a call entered with the count
below 2147483647 leaves it at least as large, and exactly one more when the
call returned `STATUS_TREASURE`; a call that returned any other value leaves
it the same. -/
def TreasureStepsInt (k : Consts) : Int → List MoveResult → Prop
  | _, [] => True
  | t, res :: rest =>
    (t < 2147483647 → t ≤ res.player.treasure) ∧
    (t < 2147483647 → res.status = k.STATUS_TREASURE → res.player.treasure = t + 1) ∧
    (res.status ≠ k.STATUS_TREASURE → res.player.treasure = t) ∧
    TreasureStepsInt k res.player.treasure rest

/-- The treasure relation along a list of results can be checked call by
call. -/
def TreasureSteps.dec (k : Consts) :
    (t : Int) → (results : List MoveResult) → Decidable (TreasureSteps k t results)
  | _, [] => isTrue trivial
  | t, res :: rest =>
    have := TreasureSteps.dec k res.player.treasure rest
    (inferInstance : Decidable (t ≤ res.player.treasure ∧
      (res.status = k.STATUS_TREASURE → res.player.treasure = t + 1) ∧
      (res.status ≠ k.STATUS_TREASURE → res.player.treasure = t) ∧
      TreasureSteps k res.player.treasure rest))

instance (k : Consts) (t : Int) (results : List MoveResult) :
    Decidable (TreasureSteps k t results) :=
  TreasureSteps.dec k t results

/-! ## Reading and writing cells -/

theorem writeCell_eq_some {m m1 : Grid} {r c : Int} {v : Char}
    (h : writeCell m r c v = some m1) :
    ∃ cells, 0 ≤ r ∧ 0 ≤ c ∧ m[r.toNat]? = some cells ∧ c.toNat < cells.length ∧
      m1 = m.set r.toNat (cells.set c.toNat v) := by
  unfold writeCell at h
  split at h
  · rename_i hrc
    split at h
    · rename_i cells hcells
      split at h
      · rename_i hlt
        exact ⟨cells, hrc.1, hrc.2, hcells, hlt, (Option.some.inj h).symm⟩
      · exact absurd h (by simp)
    · exact absurd h (by simp)
  · exact absurd h (by simp)

/-- Reading after a successful write: the written cell holds the new value,
every other position reads as before. -/
theorem readCell_writeCell {m m1 : Grid} {r c : Int} {v : Char}
    (h : writeCell m r c v = some m1) (r1 c1 : Int) :
    readCell m1 r1 c1 = if r1 = r ∧ c1 = c then some v else readCell m r1 c1 := by
  obtain ⟨cells, hr, hc, hcells, hlt, rfl⟩ := writeCell_eq_some h
  have hrlt : r.toNat < m.length := by
    rcases List.getElem?_eq_some.mp hcells with ⟨hh, _⟩
    exact hh
  by_cases hpos : 0 ≤ r1 ∧ 0 ≤ c1
  · simp only [readCell, if_pos hpos]
    by_cases hrr : r1 = r
    · subst hrr
      rw [List.getElem?_set_self hrlt]
      by_cases hcc : c1 = c
      · subst hcc
        simp [List.getElem?_set_self hlt]
      · have hne : c.toNat ≠ c1.toNat := by omega
        simp [hcc, List.getElem?_set_ne hne, hcells]
    · have hne : r.toNat ≠ r1.toNat := by omega
      simp [hrr, List.getElem?_set_ne hne]
  · have : ¬ (r1 = r ∧ c1 = c) := by
      rintro ⟨rfl, rfl⟩
      exact hpos ⟨hr, hc⟩
    simp [readCell, if_neg hpos, this]

/-- A write succeeds wherever a read does. -/
theorem writeCell_isSome {m : Grid} {r c : Int} (v : Char)
    (h : (readCell m r c).isSome) : ∃ m1, writeCell m r c v = some m1 := by
  unfold readCell at h
  unfold writeCell
  split at h
  · rename_i hrc
    rw [if_pos hrc]
    split at h
    · rename_i cells hcells
      have hlt : c.toNat < cells.length := by
        rcases Option.isSome_iff_exists.mp h with ⟨a, ha⟩
        exact (List.getElem?_eq_some.mp ha).1
      simp [hcells, hlt]
    · simp at h
  · simp at h

theorem readCell_isSome_of_write {m m1 : Grid} {r c : Int} {v : Char}
    (h : writeCell m r c v = some m1) : (readCell m r c).isSome := by
  obtain ⟨cells, hr, hc, hcells, hlt, _⟩ := writeCell_eq_some h
  unfold readCell
  simp [hr, hc, hcells, hlt]

/-- A successful write keeps the set of allocated positions. -/
theorem writeCell_shape {m m1 : Grid} {r c : Int} {v : Char}
    (h : writeCell m r c v = some m1) (r1 c1 : Int) :
    (readCell m1 r1 c1).isSome = (readCell m r1 c1).isSome := by
  rw [readCell_writeCell h]
  by_cases hh : r1 = r ∧ c1 = c
  · obtain ⟨rfl, rfl⟩ := hh
    simp [readCell_isSome_of_write h]
  · simp [hh]

theorem writeCell_rect {maxRow maxCol : Int} {m m1 : Grid} {r c : Int} {v : Char}
    (hm : Rect maxRow maxCol m) (h : writeCell m r c v = some m1) : Rect maxRow maxCol m1 := by
  obtain ⟨cells, _, _, hcells, _, rfl⟩ := writeCell_eq_some h
  refine ⟨by simpa using hm.1, ?_⟩
  intro l hl
  rcases List.mem_or_eq_of_mem_set hl with hl1 | rfl
  · exact hm.2 l hl1
  · have : cells ∈ m := List.getElem?_mem hcells
    simpa using hm.2 cells this

/-- In a rectangular map the allocated positions are those in bounds. -/
theorem readCell_isSome_iff {maxRow maxCol : Int} {m : Grid} (hm : Rect maxRow maxCol m)
    (r c : Int) : (readCell m r c).isSome ↔ InBounds maxRow maxCol r c := by
  unfold readCell InBounds
  constructor
  · intro h
    split at h
    · rename_i hrc
      split at h
      · rename_i cells hcells
        have h1 := (List.getElem?_eq_some.mp hcells).1
        rcases Option.isSome_iff_exists.mp h with ⟨a, ha⟩
        have h2 := (List.getElem?_eq_some.mp ha).1
        have h3 := hm.2 cells (List.getElem?_mem hcells)
        have h4 := hm.1
        omega
      · simp at h
    · simp at h
  · rintro ⟨h1, h2, h3, h4⟩
    have h5 := hm.1
    have hr : r.toNat < m.length := by omega
    rw [if_pos ⟨h1, h3⟩, List.getElem?_eq_getElem hr]
    have h6 := hm.2 _ (List.getElem_mem hr)
    have hc : c.toNat < (m[r.toNat]).length := by omega
    simp [List.getElem?_eq_getElem hc]

/-! ## doPlayerMove -/

/-- The effect of the statements of an accepted move, when both cells exist. -/
theorem stepOnto_spec (k : Consts) (map : Grid) (player : Player) (nextRow nextCol status : Int)
    (hp : (readCell map player.row player.col).isSome)
    (hn : (readCell map nextRow nextCol).isSome) :
    ∃ m2, stepOnto k map player nextRow nextCol status =
        some ⟨m2, ⟨nextRow, nextCol, player.treasure⟩, nextRow, nextCol, status⟩ ∧
      ∀ r c, readCell m2 r c =
        if r = nextRow ∧ c = nextCol then some k.TILE_PLAYER
        else if r = player.row ∧ c = player.col then some k.TILE_OPEN
        else readCell map r c := by
  obtain ⟨m1, h1⟩ := writeCell_isSome k.TILE_OPEN hp
  have hn1 : (readCell m1 nextRow nextCol).isSome := by
    rw [writeCell_shape h1]; exact hn
  obtain ⟨m2, h2⟩ := writeCell_isSome k.TILE_PLAYER hn1
  refine ⟨m2, by simp [stepOnto, h1, h2], ?_⟩
  intro r c
  rw [readCell_writeCell h2, readCell_writeCell h1]

theorem stepOnto_rect {k : Consts} {maxRow maxCol : Int} {map : Grid} {player : Player}
    {nextRow nextCol status : Int} {res : MoveResult} (hm : Rect maxRow maxCol map)
    (h : stepOnto k map player nextRow nextCol status = some res) :
    Rect maxRow maxCol res.map := by
  unfold stepOnto at h
  split at h
  · exact absurd h (by simp)
  · rename_i m1 h1
    split at h
    · exact absurd h (by simp)
    · rename_i m2 h2
      have := Option.some.inj h
      subst this
      exact writeCell_rect (writeCell_rect hm h1) h2

/-- Under the well-formedness of the header constants any two different tile
constants are different characters (both orientations). -/
theorem Consts.WF.distinct {k : Consts} (hk : k.WF) :
    k.TILE_OPEN ≠ k.TILE_PLAYER ∧
    k.TILE_OPEN ≠ k.TILE_TREASURE ∧
    k.TILE_OPEN ≠ k.TILE_AMULET ∧
    k.TILE_OPEN ≠ k.TILE_MONSTER ∧
    k.TILE_OPEN ≠ k.TILE_PILLAR ∧
    k.TILE_OPEN ≠ k.TILE_DOOR ∧
    k.TILE_OPEN ≠ k.TILE_EXIT ∧
    k.TILE_PLAYER ≠ k.TILE_OPEN ∧
    k.TILE_PLAYER ≠ k.TILE_TREASURE ∧
    k.TILE_PLAYER ≠ k.TILE_AMULET ∧
    k.TILE_PLAYER ≠ k.TILE_MONSTER ∧
    k.TILE_PLAYER ≠ k.TILE_PILLAR ∧
    k.TILE_PLAYER ≠ k.TILE_DOOR ∧
    k.TILE_PLAYER ≠ k.TILE_EXIT ∧
    k.TILE_TREASURE ≠ k.TILE_OPEN ∧
    k.TILE_TREASURE ≠ k.TILE_PLAYER ∧
    k.TILE_TREASURE ≠ k.TILE_AMULET ∧
    k.TILE_TREASURE ≠ k.TILE_MONSTER ∧
    k.TILE_TREASURE ≠ k.TILE_PILLAR ∧
    k.TILE_TREASURE ≠ k.TILE_DOOR ∧
    k.TILE_TREASURE ≠ k.TILE_EXIT ∧
    k.TILE_AMULET ≠ k.TILE_OPEN ∧
    k.TILE_AMULET ≠ k.TILE_PLAYER ∧
    k.TILE_AMULET ≠ k.TILE_TREASURE ∧
    k.TILE_AMULET ≠ k.TILE_MONSTER ∧
    k.TILE_AMULET ≠ k.TILE_PILLAR ∧
    k.TILE_AMULET ≠ k.TILE_DOOR ∧
    k.TILE_AMULET ≠ k.TILE_EXIT ∧
    k.TILE_MONSTER ≠ k.TILE_OPEN ∧
    k.TILE_MONSTER ≠ k.TILE_PLAYER ∧
    k.TILE_MONSTER ≠ k.TILE_TREASURE ∧
    k.TILE_MONSTER ≠ k.TILE_AMULET ∧
    k.TILE_MONSTER ≠ k.TILE_PILLAR ∧
    k.TILE_MONSTER ≠ k.TILE_DOOR ∧
    k.TILE_MONSTER ≠ k.TILE_EXIT ∧
    k.TILE_PILLAR ≠ k.TILE_OPEN ∧
    k.TILE_PILLAR ≠ k.TILE_PLAYER ∧
    k.TILE_PILLAR ≠ k.TILE_TREASURE ∧
    k.TILE_PILLAR ≠ k.TILE_AMULET ∧
    k.TILE_PILLAR ≠ k.TILE_MONSTER ∧
    k.TILE_PILLAR ≠ k.TILE_DOOR ∧
    k.TILE_PILLAR ≠ k.TILE_EXIT ∧
    k.TILE_DOOR ≠ k.TILE_OPEN ∧
    k.TILE_DOOR ≠ k.TILE_PLAYER ∧
    k.TILE_DOOR ≠ k.TILE_TREASURE ∧
    k.TILE_DOOR ≠ k.TILE_AMULET ∧
    k.TILE_DOOR ≠ k.TILE_MONSTER ∧
    k.TILE_DOOR ≠ k.TILE_PILLAR ∧
    k.TILE_DOOR ≠ k.TILE_EXIT ∧
    k.TILE_EXIT ≠ k.TILE_OPEN ∧
    k.TILE_EXIT ≠ k.TILE_PLAYER ∧
    k.TILE_EXIT ≠ k.TILE_TREASURE ∧
    k.TILE_EXIT ≠ k.TILE_AMULET ∧
    k.TILE_EXIT ≠ k.TILE_MONSTER ∧
    k.TILE_EXIT ≠ k.TILE_PILLAR ∧
    k.TILE_EXIT ≠ k.TILE_DOOR := by
  have h := hk.1
  simp only [List.nodup_cons, List.mem_cons, List.mem_singleton, not_or, List.not_mem_nil,
    not_false_eq_true, List.nodup_nil, and_true] at h
  obtain ⟨⟨a1, a2, a3, a4, a5, a6, a7⟩, ⟨b2, b3, b4, b5, b6, b7⟩, ⟨c3, c4, c5, c6, c7⟩,
    ⟨d4, d5, d6, d7⟩, ⟨e5, e6, e7⟩, ⟨f6, f7⟩, g7⟩ := h
  refine ⟨a1, a2, a3, a4, a5, a6, a7, ?_, b2, b3, b4, b5, b6, b7, ?_, ?_, c3, c4, c5, c6, c7,
    ?_, ?_, ?_, d4, d5, d6, d7, ?_, ?_, ?_, ?_, e5, e6, e7, ?_, ?_, ?_, ?_, ?_, f6, f7,
    ?_, ?_, ?_, ?_, ?_, ?_, g7, ?_, ?_, ?_, ?_, ?_, ?_, ?_⟩ <;>
  first
    | exact Ne.symm a1 | exact Ne.symm a2 | exact Ne.symm a3 | exact Ne.symm a4
    | exact Ne.symm a5 | exact Ne.symm a6 | exact Ne.symm a7 | exact Ne.symm b2
    | exact Ne.symm b3 | exact Ne.symm b4 | exact Ne.symm b5 | exact Ne.symm b6
    | exact Ne.symm b7 | exact Ne.symm c3 | exact Ne.symm c4 | exact Ne.symm c5
    | exact Ne.symm c6 | exact Ne.symm c7 | exact Ne.symm d4 | exact Ne.symm d5
    | exact Ne.symm d6 | exact Ne.symm d7 | exact Ne.symm e5 | exact Ne.symm e6
    | exact Ne.symm e7 | exact Ne.symm f6 | exact Ne.symm f7 | exact Ne.symm g7

/-- Claim C1: a blocked move changes nothing.  If the candidate is out of bounds, or
the target tile is a pillar or a monster, or it is the exit while the player
holds no treasure, then `doPlayerMove` returns `STATUS_STAY` and the map, the
player and the candidate are exactly those passed in. -/
theorem doPlayerMove_blocked (k : Consts) (hk : k.WF) (map : Grid) (maxRow maxCol : Int)
    (player : Player) (nextRow nextCol : Int)
    (h : ¬ InBounds maxRow maxCol nextRow nextCol ∨
      readCell map nextRow nextCol = some k.TILE_PILLAR ∨
      readCell map nextRow nextCol = some k.TILE_MONSTER ∨
      (readCell map nextRow nextCol = some k.TILE_EXIT ∧ player.treasure < 1)) :
    doPlayerMove k map maxRow maxCol player nextRow nextCol =
      some ⟨map, player, nextRow, nextCol, k.STATUS_STAY⟩ := by
  have hd := hk.distinct
  unfold doPlayerMove
  by_cases h1 : nextRow ≥ maxRow ∨ nextCol ≥ maxCol
  · rw [if_pos h1]
  rw [if_neg h1]
  by_cases h2 : nextRow < 0 ∨ nextCol < 0
  · rw [if_pos h2]
  rw [if_neg h2]
  rcases h with h | h | h | ⟨h, ht⟩
  · exfalso
    apply h
    unfold InBounds
    omega
  · simp [h]
  · simp [h]
  · simp [h, hd, ht]

/-- The instance of C1 given in the specification: player at (0,0) with no
treasure, exit at (0,1), moving right. -/
theorem doPlayerMove_blocked_witness :
    (sampleConsts.WF ∧
      readCell [['o', '!']] 0 1 = some sampleConsts.TILE_EXIT ∧ (0 : Int) < 1) ∧
    doPlayerMove sampleConsts [['o', '!']] 1 2 ⟨0, 0, 0⟩ 0 1 =
      some ⟨[['o', '!']], ⟨0, 0, 0⟩, 0, 1, sampleConsts.STATUS_STAY⟩ :=
  ⟨⟨by decide, by decide, by decide⟩,
    doPlayerMove_blocked sampleConsts (by decide) [['o', '!']] 1 2 ⟨0, 0, 0⟩ 0 1
      (Or.inr (Or.inr (Or.inr ⟨by decide, by decide⟩)))⟩

/-- A value in the range of a 32-bit `int` is stored unchanged. -/
theorem wrapInt_of_range {x : Int} (h1 : -2147483648 ≤ x) (h2 : x ≤ 2147483647) :
    wrapInt x = x := by
  unfold wrapInt
  omega

/-- Every stored value lies in the range of a 32-bit `int`. -/
theorem wrapInt_range (x : Int) : -2147483648 ≤ wrapInt x ∧ wrapInt x ≤ 2147483647 := by
  unfold wrapInt
  omega

/-- Claim C2, the claim as stated fails when the treasure counter is at 2147483647,
the largest `int`: with the player at (0,0) and the treasure at (0,1), moving
right returns `STATUS_TREASURE`, moves the player and leaves the counter at
-2147483648, which is not one more than before. -/
theorem doPlayerMove_treasure_not_one_more :
    sampleConsts.WF ∧ Rect 1 2 [['o', '$']] ∧ InBounds 1 2 0 0 ∧ InBounds 1 2 0 1 ∧
    readCell [['o', '$']] 0 1 = some sampleConsts.TILE_TREASURE ∧
    doPlayerMove sampleConsts [['o', '$']] 1 2 ⟨0, 0, 2147483647⟩ 0 1 =
      some ⟨[['-', 'o']], ⟨0, 1, -2147483648⟩, 0, 1, sampleConsts.STATUS_TREASURE⟩ ∧
    (-2147483648 : Int) ≠ 2147483647 + 1 := by
  decide

/-- Why the pickup theorem below takes the target to differ from the player's
own cell: on a candidate equal to the player's position whose cell holds
`TILE_TREASURE`, the code writes `TILE_OPEN` and then `TILE_PLAYER` to that same
cell, so the old cell ends holding the marker, not `TILE_OPEN`. -/
theorem doPlayerMove_treasure_on_own_cell :
    Rect 1 1 [['$']] ∧ InBounds 1 1 0 0 ∧
    readCell [['$']] 0 0 = some sampleConsts.TILE_TREASURE ∧
    doPlayerMove sampleConsts [['$']] 1 1 ⟨0, 0, 0⟩ 0 0 =
      some ⟨[['o']], ⟨0, 0, 1⟩, 0, 0, sampleConsts.STATUS_TREASURE⟩ ∧
    readCell [['o']] 0 0 ≠ some sampleConsts.TILE_OPEN := by
  decide

/-- Claim C2 (amended): treasure pickup.  In a `maxRow x maxCol` map with the player
in bounds and the treasure counter an `int` value below 2147483647, if the
in-bounds target holds `TILE_TREASURE` and is not the player's own cell,
`doPlayerMove` returns `STATUS_TREASURE`, the treasure count grows by exactly
one, the player stands on the target, the old cell holds `TILE_OPEN` and the
target holds `TILE_PLAYER`. -/
theorem doPlayerMove_treasure (k : Consts) (hk : k.WF) (map : Grid) (maxRow maxCol : Int)
    (player : Player) (nextRow nextCol : Int)
    (hrect : Rect maxRow maxCol map)
    (hp : InBounds maxRow maxCol player.row player.col)
    (hlo : -2147483648 ≤ player.treasure) (hhi : player.treasure < 2147483647)
    (hn : InBounds maxRow maxCol nextRow nextCol)
    (ht : readCell map nextRow nextCol = some k.TILE_TREASURE)
    (hne : ¬ (nextRow = player.row ∧ nextCol = player.col)) :
    ∃ m1, doPlayerMove k map maxRow maxCol player nextRow nextCol =
        some ⟨m1, ⟨nextRow, nextCol, player.treasure + 1⟩, nextRow, nextCol,
          k.STATUS_TREASURE⟩ ∧
      readCell m1 player.row player.col = some k.TILE_OPEN ∧
      readCell m1 nextRow nextCol = some k.TILE_PLAYER := by
  have hd := hk.distinct
  have hw : wrapInt (player.treasure + 1) = player.treasure + 1 :=
    wrapInt_of_range (by omega) (by omega)
  have hp1 : (readCell map player.row player.col).isSome := (readCell_isSome_iff hrect _ _).2 hp
  have hn1 : (readCell map nextRow nextCol).isSome := (readCell_isSome_iff hrect _ _).2 hn
  obtain ⟨m2, h2, hread⟩ := stepOnto_spec k map ⟨player.row, player.col, player.treasure + 1⟩
    nextRow nextCol k.STATUS_TREASURE hp1 hn1
  refine ⟨m2, ?_, ?_, ?_⟩
  · have h1 : ¬ (nextRow ≥ maxRow ∨ nextCol ≥ maxCol) := by unfold InBounds at hn; omega
    have h3 : ¬ (nextRow < 0 ∨ nextCol < 0) := by unfold InBounds at hn; omega
    unfold doPlayerMove
    rw [if_neg h1, if_neg h3, hw]
    simp only [ht]
    simp [hd, h2]
  · rw [hread]
    have : ¬ (player.row = nextRow ∧ player.col = nextCol) := fun h => hne ⟨h.1.symm, h.2.symm⟩
    simp [this]
  · rw [hread]
    simp

/-- The instance of C2 given in the specification: player at (0,0) with no
treasure, treasure at (0,1), moving right. -/
theorem doPlayerMove_treasure_witness :
    (sampleConsts.WF ∧ Rect 1 2 [['o', '$']] ∧ InBounds 1 2 0 0 ∧
      (-2147483648 : Int) ≤ 0 ∧ (0 : Int) < 2147483647 ∧ InBounds 1 2 0 1 ∧
      readCell [['o', '$']] 0 1 = some sampleConsts.TILE_TREASURE ∧
      ¬ ((0 : Int) = 0 ∧ (1 : Int) = 0)) ∧
    ∃ m1, doPlayerMove sampleConsts [['o', '$']] 1 2 ⟨0, 0, 0⟩ 0 1 =
        some ⟨m1, ⟨0, 1, 0 + 1⟩, 0, 1, sampleConsts.STATUS_TREASURE⟩ ∧
      readCell m1 0 0 = some sampleConsts.TILE_OPEN ∧
      readCell m1 0 1 = some sampleConsts.TILE_PLAYER :=
  ⟨⟨by decide, by decide, by decide, by decide, by decide, by decide, by decide, by decide⟩,
    doPlayerMove_treasure sampleConsts (by decide) [['o', '$']] 1 2 ⟨0, 0, 0⟩ 0 1
      (by decide) (by decide) (by decide) (by decide) (by decide) (by decide) (by decide)⟩

/-- Claim C3, the claim as stated fails when the candidate is the player's own cell
and that cell holds `TILE_OPEN`: the call returns `STATUS_MOVE` and the cell
holds the player marker, not `TILE_OPEN`. -/
theorem doPlayerMove_open_own_cell :
    sampleConsts.WF ∧ Rect 1 1 [['-']] ∧ InBounds 1 1 0 0 ∧
    readCell [['-']] 0 0 = some sampleConsts.TILE_OPEN ∧
    doPlayerMove sampleConsts [['-']] 1 1 ⟨0, 0, 0⟩ 0 0 =
      some ⟨[['o']], ⟨0, 0, 0⟩, 0, 0, sampleConsts.STATUS_MOVE⟩ ∧
    readCell [['o']] 0 0 ≠ some sampleConsts.TILE_OPEN := by
  decide

/-- Claim C3 (amended): accepted moves other than a treasure pickup.  In a
`maxRow x maxCol` map with the player in bounds, if the in-bounds target is not
the player's own cell and holds the amulet, the door, an open tile, or the exit
while the player holds at least one treasure, `doPlayerMove` returns
`STATUS_AMULET`, `STATUS_LEAVE`, `STATUS_MOVE`, `STATUS_ESCAPE` respectively;
the old cell holds `TILE_OPEN`, the target holds `TILE_PLAYER`, the player
stands on the target and the treasure count is unchanged. -/
theorem doPlayerMove_accepted (k : Consts) (hk : k.WF) (map : Grid) (maxRow maxCol : Int)
    (player : Player) (nextRow nextCol : Int) (t : Char) (status : Int)
    (hrect : Rect maxRow maxCol map)
    (hp : InBounds maxRow maxCol player.row player.col)
    (hn : InBounds maxRow maxCol nextRow nextCol)
    (ht : readCell map nextRow nextCol = some t)
    (hcase : (t = k.TILE_AMULET ∧ status = k.STATUS_AMULET) ∨
      (t = k.TILE_DOOR ∧ status = k.STATUS_LEAVE) ∨
      (t = k.TILE_OPEN ∧ status = k.STATUS_MOVE) ∨
      (t = k.TILE_EXIT ∧ player.treasure ≥ 1 ∧ status = k.STATUS_ESCAPE))
    (hne : ¬ (nextRow = player.row ∧ nextCol = player.col)) :
    ∃ m1, doPlayerMove k map maxRow maxCol player nextRow nextCol =
        some ⟨m1, ⟨nextRow, nextCol, player.treasure⟩, nextRow, nextCol, status⟩ ∧
      readCell m1 player.row player.col = some k.TILE_OPEN ∧
      readCell m1 nextRow nextCol = some k.TILE_PLAYER := by
  have hd := hk.distinct
  have hnul := hk.2
  have hp1 : (readCell map player.row player.col).isSome := (readCell_isSome_iff hrect _ _).2 hp
  have hn1 : (readCell map nextRow nextCol).isSome := (readCell_isSome_iff hrect _ _).2 hn
  have h1 : ¬ (nextRow ≥ maxRow ∨ nextCol ≥ maxCol) := by unfold InBounds at hn; omega
  have h3 : ¬ (nextRow < 0 ∨ nextCol < 0) := by unfold InBounds at hn; omega
  have hne2 : ¬ (player.row = nextRow ∧ player.col = nextCol) :=
    fun h => hne ⟨h.1.symm, h.2.symm⟩
  rcases hcase with ⟨rfl, rfl⟩ | ⟨rfl, rfl⟩ | ⟨rfl, rfl⟩ | ⟨rfl, htr, rfl⟩
  · obtain ⟨m2, h2, hread⟩ := stepOnto_spec k map player nextRow nextCol k.STATUS_AMULET hp1 hn1
    refine ⟨m2, ?_, by rw [hread]; simp [hne2], by rw [hread]; simp⟩
    unfold doPlayerMove
    rw [if_neg h1, if_neg h3]
    simp only [ht]
    simp [hd, h2]
  · obtain ⟨m2, h2, hread⟩ := stepOnto_spec k map player nextRow nextCol k.STATUS_LEAVE hp1 hn1
    refine ⟨m2, ?_, by rw [hread]; simp [hne2], by rw [hread]; simp⟩
    unfold doPlayerMove
    rw [if_neg h1, if_neg h3]
    simp only [ht]
    simp [hd, h2]
  · obtain ⟨m0, h0⟩ := writeCell_isSome k.TILE_OPEN hn1
    have hp0 : (readCell m0 player.row player.col).isSome := by
      rw [writeCell_shape h0]; exact hp1
    have hn0 : (readCell m0 nextRow nextCol).isSome := by
      rw [writeCell_shape h0]; exact hn1
    obtain ⟨m2, h2, hread⟩ := stepOnto_spec k m0 player nextRow nextCol k.STATUS_MOVE hp0 hn0
    refine ⟨m2, ?_, by rw [hread]; simp [hne2], by rw [hread]; simp⟩
    unfold doPlayerMove
    rw [if_neg h1, if_neg h3]
    simp only [ht]
    simp [hd, h0, h2, hnul]
  · obtain ⟨m2, h2, hread⟩ := stepOnto_spec k map player nextRow nextCol k.STATUS_ESCAPE hp1 hn1
    refine ⟨m2, ?_, by rw [hread]; simp [hne2], by rw [hread]; simp⟩
    have htr2 : ¬ player.treasure < 1 := by omega
    unfold doPlayerMove
    rw [if_neg h1, if_neg h3]
    simp only [ht]
    simp [hd, h2, htr2]

/-- An instance of C3: player at (0,0) holding one treasure, exit at (0,1),
moving right. -/
theorem doPlayerMove_accepted_witness :
    (sampleConsts.WF ∧ Rect 1 2 [['o', '!']] ∧ InBounds 1 2 0 0 ∧ InBounds 1 2 0 1 ∧
      readCell [['o', '!']] 0 1 = some '!' ∧ ¬ ((0 : Int) = 0 ∧ (1 : Int) = 0)) ∧
    ∃ m1, doPlayerMove sampleConsts [['o', '!']] 1 2 ⟨0, 0, 1⟩ 0 1 =
        some ⟨m1, ⟨0, 1, 1⟩, 0, 1, sampleConsts.STATUS_ESCAPE⟩ ∧
      readCell m1 0 0 = some sampleConsts.TILE_OPEN ∧
      readCell m1 0 1 = some sampleConsts.TILE_PLAYER :=
  ⟨⟨by decide, by decide, by decide, by decide, by decide, by decide⟩,
    doPlayerMove_accepted sampleConsts (by decide) [['o', '!']] 1 2 ⟨0, 0, 1⟩ 0 1 '!'
      sampleConsts.STATUS_ESCAPE (by decide) (by decide) (by decide) (by decide)
      (Or.inr (Or.inr (Or.inr ⟨by decide, by decide, by decide⟩))) (by decide)⟩

/-- After the statements of an accepted move the marker is on the new cell and
nowhere else, provided it was on no cell other than the old one before. -/
theorem stepOnto_marker (k : Consts) (hk : k.WF) (map : Grid) (player : Player)
    (nextRow nextCol status : Int)
    (hp : (readCell map player.row player.col).isSome)
    (hn : (readCell map nextRow nextCol).isSome)
    (huniq : ∀ r c, readCell map r c = some k.TILE_PLAYER → r = player.row ∧ c = player.col) :
    ∃ res, stepOnto k map player nextRow nextCol status = some res ∧
      MarkerAt k res.map res.player ∧ res.player.row = nextRow ∧ res.player.col = nextCol := by
  have hd := hk.distinct
  obtain ⟨m2, h2, hread⟩ := stepOnto_spec k map player nextRow nextCol status hp hn
  refine ⟨_, h2, ⟨?_, ?_⟩, rfl, rfl⟩
  · show readCell m2 nextRow nextCol = some k.TILE_PLAYER
    rw [hread]; simp
  · intro r c hrc
    show r = nextRow ∧ c = nextCol
    rw [hread] at hrc
    by_cases h1 : r = nextRow ∧ c = nextCol
    · exact h1
    · rw [if_neg h1] at hrc
      by_cases h3 : r = player.row ∧ c = player.col
      · rw [if_pos h3] at hrc
        exact absurd (Option.some.inj hrc) hd.1
      · rw [if_neg h3] at hrc
        exact absurd (huniq r c hrc) h3

/-- Claim C5: the marker invariant is kept by moves.  In a `maxRow x maxCol` map with
the player in bounds and the player marker on the player's cell and on no other
cell, `doPlayerMove` with any candidate returns, and afterwards the marker is
again on the player's cell and on no other cell, and the player is in bounds. -/
theorem doPlayerMove_marker (k : Consts) (hk : k.WF) (map : Grid) (maxRow maxCol : Int)
    (player : Player) (nextRow nextCol : Int)
    (hrect : Rect maxRow maxCol map)
    (hp : InBounds maxRow maxCol player.row player.col)
    (hmark : MarkerAt k map player) :
    ∃ res, doPlayerMove k map maxRow maxCol player nextRow nextCol = some res ∧
      MarkerAt k res.map res.player ∧
      InBounds maxRow maxCol res.player.row res.player.col := by
  have hd := hk.distinct
  have hnul := hk.2
  have hp1 : (readCell map player.row player.col).isSome := (readCell_isSome_iff hrect _ _).2 hp
  unfold doPlayerMove
  by_cases h1 : nextRow ≥ maxRow ∨ nextCol ≥ maxCol
  · rw [if_pos h1]; exact ⟨_, rfl, hmark, hp⟩
  rw [if_neg h1]
  by_cases h2 : nextRow < 0 ∨ nextCol < 0
  · rw [if_pos h2]; exact ⟨_, rfl, hmark, hp⟩
  rw [if_neg h2]
  have hn : InBounds maxRow maxCol nextRow nextCol := by unfold InBounds; omega
  have hn1 : (readCell map nextRow nextCol).isSome := (readCell_isSome_iff hrect _ _).2 hn
  obtain ⟨t, ht⟩ := Option.isSome_iff_exists.mp hn1
  simp only [ht]
  have key : ∀ (pl : Player) (status : Int), pl.row = player.row → pl.col = player.col →
      ∃ res, stepOnto k map pl nextRow nextCol status = some res ∧
        MarkerAt k res.map res.player ∧
        InBounds maxRow maxCol res.player.row res.player.col := by
    intro pl status e1 e2
    obtain ⟨res, hres, hm, e3, e4⟩ := stepOnto_marker k hk map pl nextRow nextCol status
      (by rw [e1, e2]; exact hp1) hn1 (by rw [e1, e2]; exact hmark.2)
    exact ⟨res, hres, hm, by rw [e3, e4]; exact hn⟩
  by_cases c1 : t = k.TILE_PILLAR ∨ t = k.TILE_MONSTER
  · rw [if_pos c1]; exact ⟨_, rfl, hmark, hp⟩
  rw [if_neg c1]
  by_cases c2 : t = k.TILE_TREASURE
  · rw [if_pos c2]; exact key _ _ rfl rfl
  rw [if_neg c2]
  by_cases c3 : t = k.TILE_AMULET
  · rw [if_pos c3]; exact key _ _ rfl rfl
  rw [if_neg c3]
  by_cases c4 : t = k.TILE_DOOR
  · rw [if_pos c4]; exact key _ _ rfl rfl
  rw [if_neg c4]
  by_cases c5 : t = k.TILE_EXIT
  · rw [if_pos c5]
    by_cases c6 : player.treasure < 1
    · rw [if_pos c6]; exact ⟨_, rfl, hmark, hp⟩
    · rw [if_neg c6]; exact key _ _ rfl rfl
  rw [if_neg c5]
  obtain ⟨m0, h0⟩ := writeCell_isSome k.TILE_OPEN hn1
  simp only [h0]
  rw [if_pos hnul]
  obtain ⟨res, hres, hm, e3, e4⟩ := stepOnto_marker k hk m0 player nextRow nextCol k.STATUS_MOVE
    (by rw [writeCell_shape h0]; exact hp1) (by rw [writeCell_shape h0]; exact hn1)
    (by
      intro r c hrc
      rw [readCell_writeCell h0] at hrc
      by_cases e : r = nextRow ∧ c = nextCol
      · rw [if_pos e] at hrc
        exact absurd (Option.some.inj hrc) hd.1
      · rw [if_neg e] at hrc
        exact hmark.2 r c hrc)
  exact ⟨res, hres, hm, by rw [e3, e4]; exact hn⟩

/-- An instance of C5: the player at (0,0) of a one-row map steps right onto
an open tile. -/
theorem doPlayerMove_marker_witness :
    (sampleConsts.WF ∧ Rect 1 2 [['o', '-']] ∧ InBounds 1 2 0 0 ∧
      MarkerAt sampleConsts [['o', '-']] ⟨0, 0, 0⟩) ∧
    ∃ res, doPlayerMove sampleConsts [['o', '-']] 1 2 ⟨0, 0, 0⟩ 0 1 = some res ∧
      MarkerAt sampleConsts res.map res.player ∧
      InBounds 1 2 res.player.row res.player.col :=
  ⟨⟨by decide, by decide, by decide, by decide⟩,
    doPlayerMove_marker sampleConsts (by decide) [['o', '-']] 1 2 ⟨0, 0, 0⟩ 0 1
      (by decide) (by decide) (by decide)⟩

/-! ## The scanning loops of doMonsterAttack -/

theorem readAt_write {m m1 : Grid} {p : Int × Int} {v : Char}
    (h : writeCell m p.1 p.2 v = some m1) (q : Int × Int) :
    readAt m1 q = if q = p then some v else readAt m q := by
  unfold readAt
  rw [readCell_writeCell h]
  by_cases e : q = p
  · subst e; simp
  · have : ¬ (q.1 = p.1 ∧ q.2 = p.2) := fun h => e (Prod.ext h.1 h.2)
    simp [e, this]

/-- The three ways one execution of the loop body can end. -/
theorem rayBody_cases {k : Consts} {cell : Int → Int × Int} {step i : Int} {m m2 : Grid}
    {b : Bool} (h : rayBody k cell step i m = some (m2, b)) :
    (readAt m (cell i) = some k.TILE_PILLAR ∧ m2 = m ∧ b = true) ∨
    (∃ m1, readAt m (cell i) = some k.TILE_MONSTER ∧
      writeCell m (cell i).1 (cell i).2 k.TILE_OPEN = some m1 ∧
      writeCell m1 (cell (i - step)).1 (cell (i - step)).2 k.TILE_MONSTER = some m2 ∧
      b = false) ∨
    (∃ t, readAt m (cell i) = some t ∧ t ≠ k.TILE_PILLAR ∧ t ≠ k.TILE_MONSTER ∧
      m2 = m ∧ b = false) := by
  unfold rayBody scanCell at h
  unfold readAt
  split at h
  · exact absurd h (by simp)
  · rename_i t ht
    by_cases hp : t = k.TILE_PILLAR
    · rw [if_pos hp] at h
      simp only [Option.some.injEq, Prod.mk.injEq] at h
      exact Or.inl ⟨by rw [ht, hp], h.1.symm, h.2.symm⟩
    · rw [if_neg hp] at h
      by_cases hm : t = k.TILE_MONSTER
      · rw [if_pos hm] at h
        split at h
        · exact absurd h (by simp)
        · rename_i m1 h1
          split at h
          · exact absurd h (by simp)
          · rename_i m3 h3
            simp only [Option.some.injEq, Prod.mk.injEq] at h
            refine Or.inr (Or.inl ⟨m1, by rw [ht, hm], h1, ?_, h.2.symm⟩)
            rw [h3, h.1]
      · rw [if_neg hm] at h
        simp only [Option.some.injEq, Prod.mk.injEq] at h
        exact Or.inr (Or.inr ⟨t, ht, hp, hm, h.1.symm, h.2.symm⟩)

theorem forLoop_succ_eq_some {σ : Type} {step : Int} {body : Int → σ → Option (σ × Bool)}
    {n : Nat} {i : Int} {s s1 : σ} (h : forLoop step body (n + 1) i s = some s1) :
    ∃ s2 b, body i s = some (s2, b) ∧
      ((b = true ∧ s1 = s2) ∨ (b = false ∧ forLoop step body n (i + step) s2 = some s1)) := by
  unfold forLoop at h
  split at h
  · exact absurd h (by simp)
  · rename_i s2 hb
    exact ⟨s2, true, hb, Or.inl ⟨rfl, (Option.some.inj h).symm⟩⟩
  · rename_i s2 hb
    exact ⟨s2, false, hb, Or.inr ⟨rfl, h⟩⟩

/-- One iteration of a scanning loop that returns: either the loop stops with
the map unchanged (pillar), or it goes on from the next index with the map
possibly changed at the visited cell and its neighbour (monster), or it goes
on with the map unchanged. -/
theorem scan_succ {k : Consts} {cell : Int → Int × Int} {step i : Int} {n : Nat} {m m1 : Grid}
    (h : forLoop step (rayBody k cell step) (n + 1) i m = some m1) :
    (readAt m (cell i) = some k.TILE_PILLAR ∧ m1 = m) ∨
    (∃ ma mb, readAt m (cell i) = some k.TILE_MONSTER ∧
      writeCell m (cell i).1 (cell i).2 k.TILE_OPEN = some ma ∧
      writeCell ma (cell (i - step)).1 (cell (i - step)).2 k.TILE_MONSTER = some mb ∧
      forLoop step (rayBody k cell step) n (i + step) mb = some m1) ∨
    (∃ t, readAt m (cell i) = some t ∧ t ≠ k.TILE_PILLAR ∧ t ≠ k.TILE_MONSTER ∧
      forLoop step (rayBody k cell step) n (i + step) m = some m1) := by
  obtain ⟨s2, b, hb, hrest⟩ := forLoop_succ_eq_some h
  rcases rayBody_cases hb with ⟨hp, e1, e2⟩ | ⟨ma, hmon, h1, h2, e2⟩ | ⟨t, ht, hp, hm, e1, e2⟩
  · rcases hrest with ⟨_, e3⟩ | ⟨e3, _⟩
    · exact Or.inl ⟨hp, by rw [e3, e1]⟩
    · rw [e2] at e3; exact absurd e3 (by simp)
  · rcases hrest with ⟨e3, _⟩ | ⟨_, e3⟩
    · rw [e2] at e3; exact absurd e3 (by simp)
    · exact Or.inr (Or.inl ⟨ma, s2, hmon, h1, h2, e3⟩)
  · rcases hrest with ⟨e3, _⟩ | ⟨_, e3⟩
    · rw [e2] at e3; exact absurd e3 (by simp)
    · rw [e1] at e3
      exact Or.inr (Or.inr ⟨t, ht, hp, hm, e3⟩)

theorem cell_ne_of_offset {cell : Int → Int × Int} (hinj : Function.Injective cell)
    {a b : Int} (h : a ≠ b) : cell a ≠ cell b :=
  fun e => h (hinj e)

/-- Frame of a scanning loop.  Suppose that from offset `D` on every monster of
the ray is hidden behind a pillar standing at an offset at least `D`.  Then the
loop writes only to the cells visited before offset `D` and to their neighbours
toward the player: every other position reads as before. -/
theorem scan_frame (k : Consts) (cell : Int → Int × Int) (step : Int)
    (hinj : Function.Injective cell) (hstep : step = 1 ∨ step = -1) :
    ∀ (n D : Nat) (i : Int) (m m1 : Grid),
      forLoop step (rayBody k cell step) n i m = some m1 →
      (∀ j : Nat, D ≤ j → j < n → readAt m (cell (i + j * step)) = some k.TILE_MONSTER →
        ∃ j1 : Nat, D ≤ j1 ∧ j1 < j ∧ readAt m (cell (i + j1 * step)) = some k.TILE_PILLAR) →
      ∀ q : Int × Int,
        (∀ j : Nat, j < D → q ≠ cell (i + j * step) ∧ q ≠ cell (i + j * step - step)) →
        readAt m1 q = readAt m q := by
  intro n
  induction n with
  | zero =>
    intro D i m m1 h _ q _
    simp only [forLoop, Option.some.injEq] at h
    rw [h]
  | succ n ih =>
    intro D i m m1 h H q hq
    have shift : ∀ j : Nat, i + step + (j : Int) * step = i + ((j + 1 : Nat) : Int) * step := by
      intro j; push_cast; ring
    rcases scan_succ h with ⟨_, e⟩ | ⟨ma, mb, hmon, h1, h2, hrest⟩ | ⟨t, ht, hp, hm, hrest⟩
    · rw [e]
    · have hD : 1 ≤ D := by
        by_contra hD0
        obtain ⟨j1, _, h2', _⟩ := H 0 (by omega) (by omega) (by simpa using hmon)
        omega
      have hq0 := hq 0 (by omega)
      simp only [Nat.cast_zero, zero_mul, add_zero] at hq0
      have keep : ∀ p : Int × Int, p ≠ cell i → p ≠ cell (i - step) →
          readAt mb p = readAt m p := by
        intro p hp1 hp2
        rw [readAt_write h2, if_neg hp2, readAt_write h1, if_neg hp1]
      have far : ∀ j : Nat, readAt mb (cell (i + ((j + 1 : Nat) : Int) * step)) =
          readAt m (cell (i + ((j + 1 : Nat) : Int) * step)) := by
        intro j
        apply keep
        · apply cell_ne_of_offset hinj
          rcases hstep with rfl | rfl <;> push_cast <;> omega
        · apply cell_ne_of_offset hinj
          rcases hstep with rfl | rfl <;> push_cast <;> omega
      rw [← keep q hq0.1 hq0.2]
      apply ih (D - 1) (i + step) mb m1 hrest
      · intro j hj1 hj2 hmj
        rw [shift, far] at hmj
        obtain ⟨j1, g1, g2, g3⟩ := H (j + 1) (by omega) (by omega) hmj
        refine ⟨j1 - 1, by omega, by omega, ?_⟩
        have e : j1 = (j1 - 1) + 1 := by omega
        rw [shift, ← e]
        rw [e, far, ← e]
        exact g3
      · intro j hj
        have := hq (j + 1) (by omega)
        rw [shift]
        exact this
    · apply ih (D - 1) (i + step) m m1 hrest
      · intro j hj1 hj2 hmj
        rw [shift] at hmj
        obtain ⟨j1, g1, g2, g3⟩ := H (j + 1) (by omega) (by omega) hmj
        have hj1pos : j1 ≠ 0 := by
          rintro rfl
          simp only [Nat.cast_zero, zero_mul, add_zero] at g3
          rw [ht] at g3
          exact hp (Option.some.inj g3)
        refine ⟨j1 - 1, by omega, by omega, ?_⟩
        have e : j1 = (j1 - 1) + 1 := by omega
        rw [shift, ← e]
        exact g3
      · intro j hj
        have := hq (j + 1) (by omega)
        rw [shift]
        exact this

/-- Frame of a scanning loop without any assumption on the ray: the loop
writes only to the visited cells and to their neighbours toward the player. -/
theorem scan_frame_all (k : Consts) (cell : Int → Int × Int) (step : Int)
    (hinj : Function.Injective cell) (hstep : step = 1 ∨ step = -1)
    (n : Nat) (i : Int) (m m1 : Grid)
    (h : forLoop step (rayBody k cell step) n i m = some m1) (q : Int × Int)
    (hq : ∀ j : Nat, j < n → q ≠ cell (i + j * step) ∧ q ≠ cell (i + j * step - step)) :
    readAt m1 q = readAt m q :=
  scan_frame k cell step hinj hstep n n i m m1 h (fun j h1 h2 _ => absurd h2 (by omega)) q hq

/-- Every cell changed by a scanning loop holds `TILE_OPEN` or `TILE_MONSTER`
afterwards. -/
theorem scan_values (k : Consts) (cell : Int → Int × Int) (step : Int) :
    ∀ (n : Nat) (i : Int) (m m1 : Grid),
      forLoop step (rayBody k cell step) n i m = some m1 →
      ∀ q : Int × Int, readAt m1 q = readAt m q ∨ readAt m1 q = some k.TILE_OPEN ∨
        readAt m1 q = some k.TILE_MONSTER := by
  intro n
  induction n with
  | zero =>
    intro i m m1 h q
    simp only [forLoop, Option.some.injEq] at h
    rw [h]; exact Or.inl rfl
  | succ n ih =>
    intro i m m1 h q
    rcases scan_succ h with ⟨_, e⟩ | ⟨ma, mb, hmon, h1, h2, hrest⟩ | ⟨t, ht, hp, hm, hrest⟩
    · rw [e]; exact Or.inl rfl
    · rcases ih (i + step) mb m1 hrest q with e | e | e
      · rw [e, readAt_write h2, readAt_write h1]
        by_cases c1 : q = cell (i - step)
        · rw [if_pos c1]; exact Or.inr (Or.inr rfl)
        · rw [if_neg c1]
          by_cases c2 : q = cell i
          · rw [if_pos c2]; exact Or.inr (Or.inl rfl)
          · rw [if_neg c2]; exact Or.inl rfl
      · exact Or.inr (Or.inl e)
      · exact Or.inr (Or.inr e)
    · exact ih (i + step) m m1 hrest q

/-- A scanning loop keeps the set of allocated positions. -/
theorem scan_shape (k : Consts) (cell : Int → Int × Int) (step : Int) :
    ∀ (n : Nat) (i : Int) (m m1 : Grid),
      forLoop step (rayBody k cell step) n i m = some m1 →
      ∀ r c, (readCell m1 r c).isSome = (readCell m r c).isSome := by
  intro n
  induction n with
  | zero =>
    intro i m m1 h r c
    simp only [forLoop, Option.some.injEq] at h
    rw [h]
  | succ n ih =>
    intro i m m1 h r c
    rcases scan_succ h with ⟨_, e⟩ | ⟨ma, mb, hmon, h1, h2, hrest⟩ | ⟨t, ht, hp, hm, hrest⟩
    · rw [e]
    · rw [ih (i + step) mb m1 hrest, writeCell_shape h2, writeCell_shape h1]
    · exact ih (i + step) m m1 hrest r c

theorem scan_rect (k : Consts) (cell : Int → Int × Int) (step : Int) (maxRow maxCol : Int) :
    ∀ (n : Nat) (i : Int) (m m1 : Grid),
      forLoop step (rayBody k cell step) n i m = some m1 →
      Rect maxRow maxCol m → Rect maxRow maxCol m1 := by
  intro n
  induction n with
  | zero =>
    intro i m m1 h hm
    simp only [forLoop, Option.some.injEq] at h
    rw [← h]; exact hm
  | succ n ih =>
    intro i m m1 h hm
    rcases scan_succ h with ⟨_, e⟩ | ⟨ma, mb, hmon, h1, h2, hrest⟩ | ⟨t, ht, hp, hm1, hrest⟩
    · rw [e]; exact hm
    · exact ih (i + step) mb m1 hrest (writeCell_rect (writeCell_rect hm h1) h2)
    · exact ih (i + step) m m1 hrest hm

/-- A scanning loop returns when every visited cell is allocated and, in case
the first visited cell holds a monster, so is its neighbour toward the player. -/
theorem scan_defined (k : Consts) (cell : Int → Int × Int) (step : Int) :
    ∀ (n : Nat) (i : Int) (m : Grid),
      (∀ j : Nat, j < n → (readAt m (cell (i + j * step))).isSome) →
      (readAt m (cell i) = some k.TILE_MONSTER → (readAt m (cell (i - step))).isSome) →
      ∃ m1, forLoop step (rayBody k cell step) n i m = some m1 := by
  intro n
  induction n with
  | zero => intro i m _ _; exact ⟨m, rfl⟩
  | succ n ih =>
    intro i m hin hback
    have shift : ∀ j : Nat, i + step + (j : Int) * step = i + ((j + 1 : Nat) : Int) * step := by
      intro j; push_cast; ring
    have h0 := hin 0 (by omega)
    simp only [Nat.cast_zero, zero_mul, add_zero] at h0
    obtain ⟨t, ht⟩ := Option.isSome_iff_exists.mp h0
    have ht1 : readCell m (cell i).1 (cell i).2 = some t := ht
    have back : i + step - step = i := by ring
    by_cases hp : t = k.TILE_PILLAR
    · exact ⟨m, by simp [forLoop, rayBody, scanCell, ht1, hp]⟩
    · by_cases hm : t = k.TILE_MONSTER
      · obtain ⟨ma, h1⟩ := writeCell_isSome k.TILE_OPEN h0
        have hb : (readCell ma (cell (i - step)).1 (cell (i - step)).2).isSome := by
          rw [writeCell_shape h1]
          exact hback (by rw [ht, hm])
        obtain ⟨mb, h2⟩ := writeCell_isSome k.TILE_MONSTER hb
        have shp : ∀ p : Int × Int, (readAt mb p).isSome = (readAt m p).isSome := by
          intro p
          unfold readAt
          rw [writeCell_shape h2, writeCell_shape h1]
        obtain ⟨m1, hm1⟩ := ih (i + step) mb
          (by
            intro j hj
            rw [shift, shp]
            exact hin (j + 1) (by omega))
          (by
            intro _
            rw [back, shp]
            exact h0)
        refine ⟨m1, ?_⟩
        have hpm : ¬ k.TILE_MONSTER = k.TILE_PILLAR := fun e => hp (by rw [hm, e])
        simp [forLoop, rayBody, scanCell, ht1, hm, hpm, h1, h2, hm1]
      · obtain ⟨m1, hm1⟩ := ih (i + step) m
          (by
            intro j hj
            rw [shift]
            exact hin (j + 1) (by omega))
          (by
            intro _
            rw [back]
            exact h0)
        exact ⟨m1, by simp [forLoop, rayBody, scanCell, ht1, hp, hm, hm1]⟩

/-- When the first visited cell holds no monster, the loop writes only to
visited cells. -/
theorem scan_frame_head (k : Consts) (cell : Int → Int × Int) (step : Int)
    (hinj : Function.Injective cell) (hstep : step = 1 ∨ step = -1)
    (n : Nat) (i : Int) (m m1 : Grid)
    (hhead : readAt m (cell i) ≠ some k.TILE_MONSTER)
    (h : forLoop step (rayBody k cell step) n i m = some m1) (q : Int × Int)
    (hq : ∀ j : Nat, j < n → q ≠ cell (i + j * step)) :
    readAt m1 q = readAt m q := by
  cases n with
  | zero =>
    simp only [forLoop, Option.some.injEq] at h
    rw [h]
  | succ n =>
    rcases scan_succ h with ⟨_, e⟩ | ⟨ma, mb, hmon, _, _, _⟩ | ⟨t, ht, hp, hm, hrest⟩
    · rw [e]
    · exact absurd hmon hhead
    · apply scan_frame_all k cell step hinj hstep n (i + step) m m1 hrest q
      intro j hj
      have e1 : i + step + (j : Int) * step = i + ((j + 1 : Nat) : Int) * step := by
        push_cast; ring
      have e2 : i + step + (j : Int) * step - step = i + (j : Int) * step := by ring
      rw [e2, e1]
      exact ⟨hq (j + 1) (by omega), hq j (by omega)⟩

/-- When neither the first nor the second visited cell holds a monster, the
loop writes only to visited cells other than the first. -/
theorem scan_frame_head2 (k : Consts) (cell : Int → Int × Int) (step : Int)
    (hinj : Function.Injective cell) (hstep : step = 1 ∨ step = -1)
    (n : Nat) (i : Int) (m m1 : Grid)
    (hhead : readAt m (cell i) ≠ some k.TILE_MONSTER)
    (hsnd : readAt m (cell (i + step)) ≠ some k.TILE_MONSTER)
    (h : forLoop step (rayBody k cell step) n i m = some m1) (q : Int × Int)
    (hq : ∀ j : Nat, 1 ≤ j → j < n → q ≠ cell (i + j * step)) :
    readAt m1 q = readAt m q := by
  cases n with
  | zero =>
    simp only [forLoop, Option.some.injEq] at h
    rw [h]
  | succ n =>
    rcases scan_succ h with ⟨_, e⟩ | ⟨ma, mb, hmon, _, _, _⟩ | ⟨t, ht, hp, hm, hrest⟩
    · rw [e]
    · exact absurd hmon hhead
    · apply scan_frame_head k cell step hinj hstep n (i + step) m m1 hsnd hrest q
      intro j hj
      have e1 : i + step + (j : Int) * step = i + ((j + 1 : Nat) : Int) * step := by
        push_cast; ring
      rw [e1]
      exact hq (j + 1) (by omega) (by omega)

/-- When the second visited cell holds no monster, the first visited cell holds
no monster after the loop: a monster standing there is moved away and none
arrives. -/
theorem scan_start_clear (k : Consts) (hk : k.WF) (cell : Int → Int × Int) (step : Int)
    (hinj : Function.Injective cell) (hstep : step = 1 ∨ step = -1)
    (n : Nat) (i : Int) (m m1 : Grid)
    (hsnd : readAt m (cell (i + step)) ≠ some k.TILE_MONSTER)
    (h : forLoop step (rayBody k cell step) (n + 1) i m = some m1) :
    readAt m1 (cell i) ≠ some k.TILE_MONSTER := by
  have hd := hk.distinct
  have hself : ∀ j : Nat, j < n → cell i ≠ cell (i + step + (j : Int) * step) := by
    intro j _
    apply cell_ne_of_offset hinj
    rcases hstep with rfl | rfl <;> omega
  rcases scan_succ h with ⟨hp, e⟩ | ⟨ma, mb, hmon, h1, h2, hrest⟩ | ⟨t, ht, hp, hm, hrest⟩
  · rw [e, hp]
    intro e1
    have := Option.some.inj e1
    simp [hd] at this
  · have n1 : cell (i + step) ≠ cell i := by
      apply cell_ne_of_offset hinj
      rcases hstep with rfl | rfl <;> omega
    have n2 : cell (i + step) ≠ cell (i - step) := by
      apply cell_ne_of_offset hinj
      rcases hstep with rfl | rfl <;> omega
    have n3 : cell i ≠ cell (i - step) := by
      apply cell_ne_of_offset hinj
      rcases hstep with rfl | rfl <;> omega
    have hs : readAt mb (cell (i + step)) ≠ some k.TILE_MONSTER := by
      rw [readAt_write h2, if_neg n2, readAt_write h1, if_neg n1]
      exact hsnd
    rw [scan_frame_head k cell step hinj hstep n (i + step) mb m1 hs hrest (cell i) hself,
      readAt_write h2, if_neg n3, readAt_write h1, if_pos rfl]
    intro e1
    have := Option.some.inj e1
    simp [hd] at this
  · rw [scan_frame_head k cell step hinj hstep n (i + step) m m1 hsnd hrest (cell i) hself, ht]
    intro e1
    exact hm (Option.some.inj e1)

/-! ## doMonsterAttack as four scans -/

theorem up_body (k : Consts) (player : Player) :
    (fun (i : Int) (m : Grid) => scanCell k i player.col (i + 1) player.col m) =
      rayBody k (colCell player) (-1) := by
  funext i m
  simp [rayBody, colCell]

theorem down_body (k : Consts) (player : Player) :
    (fun (i : Int) (m : Grid) => scanCell k i player.col (i - 1) player.col m) =
      rayBody k (colCell player) 1 := by
  funext i m
  simp [rayBody, colCell]

theorem left_body (k : Consts) (player : Player) :
    (fun (i : Int) (m : Grid) => scanCell k player.row i player.row (i + 1) m) =
      rayBody k (rowCell player) (-1) := by
  funext i m
  simp [rayBody, rowCell]

theorem right_body (k : Consts) (player : Player) :
    (fun (i : Int) (m : Grid) => scanCell k player.row i player.row (i - 1) m) =
      rayBody k (rowCell player) 1 := by
  funext i m
  simp [rayBody, rowCell]

/-- The source function is the sequence of the four scans followed by the test
of the player's tile. -/
theorem doMonsterAttack_eq (k : Consts) (map : Grid) (maxRow maxCol : Int) (player : Player) :
    doMonsterAttack k map maxRow maxCol player =
      (scanUp k player map).bind (fun m1 =>
        (scanDown k maxRow player m1).bind (fun m2 =>
          (scanLeft k player m2).bind (fun m3 =>
            (scanRight k maxCol player m3).bind (fun m4 =>
              (readCell m4 player.row player.col).map (fun t =>
                (⟨m4, player, decide (t = k.TILE_MONSTER)⟩ : AttackResult)))))) := by
  unfold doMonsterAttack scanUp scanDown scanLeft scanRight
  rw [up_body, down_body, left_body, right_body]
  cases forLoop (-1) (rayBody k (colCell player) (-1)) (player.row + 1).toNat player.row map with
  | none => rfl
  | some m1 =>
    simp only [Option.some_bind]
    cases forLoop 1 (rayBody k (colCell player) 1) (maxRow - player.row).toNat player.row m1 with
    | none => rfl
    | some m2 =>
      simp only [Option.some_bind]
      cases forLoop (-1) (rayBody k (rowCell player) (-1)) (player.col + 1).toNat
          player.col m2 with
      | none => rfl
      | some m3 =>
        simp only [Option.some_bind]
        cases forLoop 1 (rayBody k (rowCell player) 1) (maxCol - player.col).toNat
            player.col m3 with
        | none => rfl
        | some m4 =>
          simp only [Option.some_bind]
          cases readCell m4 player.row player.col <;> rfl

/-- The intermediate maps of a returning call. -/
theorem doMonsterAttack_eq_some {k : Consts} {map : Grid} {maxRow maxCol : Int}
    {player : Player} {res : AttackResult}
    (h : doMonsterAttack k map maxRow maxCol player = some res) :
    ∃ m1 m2 m3 t, scanUp k player map = some m1 ∧ scanDown k maxRow player m1 = some m2 ∧
      scanLeft k player m2 = some m3 ∧ scanRight k maxCol player m3 = some res.map ∧
      readCell res.map player.row player.col = some t ∧ res.player = player ∧
      res.caught = decide (t = k.TILE_MONSTER) := by
  rw [doMonsterAttack_eq] at h
  simp only [Option.bind_eq_some, Option.map_eq_some'] at h
  obtain ⟨m1, h1, m2, h2, m3, h3, m4, h4, t, ht, rfl⟩ := h
  exact ⟨m1, m2, m3, t, h1, h2, h3, h4, ht, rfl, rfl⟩

theorem colCell_injective (player : Player) : Function.Injective (colCell player) := by
  intro a b h
  simp only [colCell, Prod.mk.injEq] at h
  exact h.1

theorem rowCell_injective (player : Player) : Function.Injective (rowCell player) := by
  intro a b h
  simp only [rowCell, Prod.mk.injEq] at h
  exact h.2

theorem readCell_neg_col (m : Grid) (r : Int) : readCell m r (-1) = none := by
  simp [readCell]

theorem readCell_neg_row (m : Grid) (c : Int) : readCell m (-1) c = none := by
  simp [readCell]

/-- The four scans with the facts needed to chain them: in a rectangular map
with the player in bounds and no monster on the player's cell, where a monster
directly below the player implies that the player is not in the last column,
every scan returns. -/
theorem scans_defined (k : Consts) (hk : k.WF) (map : Grid) (maxRow maxCol : Int)
    (player : Player) (hrect : Rect maxRow maxCol map)
    (hp : InBounds maxRow maxCol player.row player.col)
    (hhead : readCell map player.row player.col ≠ some k.TILE_MONSTER)
    (hsafe : readCell map (player.row + 1) player.col = some k.TILE_MONSTER →
      player.col + 1 < maxCol) :
    ∃ m1 m2 m3 m4, scanUp k player map = some m1 ∧ scanDown k maxRow player m1 = some m2 ∧
      scanLeft k player m2 = some m3 ∧ scanRight k maxCol player m3 = some m4 ∧
      Rect maxRow maxCol m4 := by
  obtain ⟨hp1, hp2, hp3, hp4⟩ := hp
  have inb : ∀ m : Grid, Rect maxRow maxCol m → ∀ r c, 0 ≤ r → r < maxRow → 0 ≤ c →
      c < maxCol → (readCell m r c).isSome :=
    fun m hm r c a1 a2 a3 a4 => (readCell_isSome_iff hm r c).2 ⟨a1, a2, a3, a4⟩
  have cinj := colCell_injective player
  have rinj := rowCell_injective player
  -- up
  have hup : ∃ m1, scanUp k player map = some m1 := by
    apply scan_defined
    · intro j hj
      apply inb map hrect <;> simp only [colCell] <;> omega
    · intro h
      exact absurd h hhead
  obtain ⟨m1, h1⟩ := hup
  have r1 : Rect maxRow maxCol m1 := scan_rect k _ _ maxRow maxCol _ _ _ _ h1 hrect
  have a1 : readCell m1 (player.row + 1) player.col = readCell map (player.row + 1) player.col := by
    have hq : ∀ j : Nat, j < (player.row + 1).toNat →
        (player.row + 1, player.col) ≠ colCell player (player.row + j * -1) := by
      intro j _
      simp only [colCell, ne_eq, Prod.mk.injEq, not_and]
      intro e; omega
    exact scan_frame_head k (colCell player) (-1) cinj (Or.inr rfl) (player.row + 1).toNat
      player.row map m1 hhead h1 (player.row + 1, player.col) hq
  have a2 : player.row = 0 → readCell m1 player.row player.col ≠ some k.TILE_MONSTER := by
    intro h0
    have e : (player.row + 1).toNat = 0 + 1 := by omega
    unfold scanUp at h1
    rw [e] at h1
    apply scan_start_clear k hk (colCell player) (-1) cinj (Or.inr rfl) 0 player.row map m1 _ h1
    simp only [colCell, readAt, h0]
    rw [show (0 : Int) + -1 = -1 from rfl, readCell_neg_row]
    simp
  -- down
  have hdown : ∃ m2, scanDown k maxRow player m1 = some m2 := by
    apply scan_defined
    · intro j hj
      apply inb m1 r1 <;> simp only [colCell] <;> omega
    · intro h
      by_cases h0 : player.row = 0
      · exact absurd h (a2 h0)
      · apply inb m1 r1 <;> simp only [colCell] <;> omega
  obtain ⟨m2, h2⟩ := hdown
  have r2 : Rect maxRow maxCol m2 := scan_rect k _ _ maxRow maxCol _ _ _ _ h2 r1
  have b1 : readCell m1 (player.row + 1) player.col ≠ some k.TILE_MONSTER →
      readCell m2 player.row player.col ≠ some k.TILE_MONSTER := by
    intro hb
    obtain ⟨n, e⟩ : ∃ n, (maxRow - player.row).toNat = n + 1 :=
      ⟨(maxRow - player.row).toNat - 1, by omega⟩
    unfold scanDown at h2
    rw [e] at h2
    exact scan_start_clear k hk (colCell player) 1 cinj (Or.inl rfl) n player.row m1 m2 hb h2
  -- left
  have hleft : ∃ m3, scanLeft k player m2 = some m3 := by
    apply scan_defined
    · intro j hj
      apply inb m2 r2 <;> simp only [rowCell] <;> omega
    · intro h
      by_cases hc : player.col + 1 < maxCol
      · apply inb m2 r2 <;> simp only [rowCell] <;> omega
      · have : readCell map (player.row + 1) player.col ≠ some k.TILE_MONSTER :=
          fun e => hc (hsafe e)
        rw [← a1] at this
        exact absurd h (b1 this)
  obtain ⟨m3, h3⟩ := hleft
  have r3 : Rect maxRow maxCol m3 := scan_rect k _ _ maxRow maxCol _ _ _ _ h3 r2
  have c1 : player.col = 0 → readCell m3 player.row player.col ≠ some k.TILE_MONSTER := by
    intro h0
    have e : (player.col + 1).toNat = 0 + 1 := by omega
    unfold scanLeft at h3
    rw [e] at h3
    apply scan_start_clear k hk (rowCell player) (-1) rinj (Or.inr rfl) 0 player.col m2 m3 _ h3
    simp only [rowCell, readAt, h0]
    rw [show (0 : Int) + -1 = -1 from rfl, readCell_neg_col]
    simp
  -- right
  have hright : ∃ m4, scanRight k maxCol player m3 = some m4 := by
    apply scan_defined
    · intro j hj
      apply inb m3 r3 <;> simp only [rowCell] <;> omega
    · intro h
      by_cases h0 : player.col = 0
      · exact absurd h (c1 h0)
      · apply inb m3 r3 <;> simp only [rowCell] <;> omega
  obtain ⟨m4, h4⟩ := hright
  exact ⟨m1, m2, m3, m4, h1, h2, h3, h4, scan_rect k _ _ maxRow maxCol _ _ _ _ h4 r3⟩

/-- Total correctness of the call under the conditions of `scans_defined`. -/
theorem doMonsterAttack_defined (k : Consts) (hk : k.WF) (map : Grid) (maxRow maxCol : Int)
    (player : Player) (hrect : Rect maxRow maxCol map)
    (hp : InBounds maxRow maxCol player.row player.col)
    (hhead : readCell map player.row player.col ≠ some k.TILE_MONSTER)
    (hsafe : readCell map (player.row + 1) player.col = some k.TILE_MONSTER →
      player.col + 1 < maxCol) :
    ∃ res, doMonsterAttack k map maxRow maxCol player = some res := by
  obtain ⟨m1, m2, m3, m4, h1, h2, h3, h4, r4⟩ :=
    scans_defined k hk map maxRow maxCol player hrect hp hhead hsafe
  obtain ⟨t, ht⟩ := Option.isSome_iff_exists.mp ((readCell_isSome_iff r4 _ _).2 hp)
  exact ⟨_, by rw [doMonsterAttack_eq, h1, Option.some_bind, h2, Option.some_bind, h3,
    Option.some_bind, h4, Option.some_bind, ht, Option.map_some']⟩

/-- Every cell changed by a call holds `TILE_OPEN` or `TILE_MONSTER` afterwards. -/
theorem doMonsterAttack_values {k : Consts} {map : Grid} {maxRow maxCol : Int}
    {player : Player} {res : AttackResult}
    (h : doMonsterAttack k map maxRow maxCol player = some res) (q : Int × Int) :
    readAt res.map q = readAt map q ∨ readAt res.map q = some k.TILE_OPEN ∨
      readAt res.map q = some k.TILE_MONSTER := by
  obtain ⟨m1, m2, m3, t, h1, h2, h3, h4, _, _, _⟩ := doMonsterAttack_eq_some h
  rcases scan_values k _ _ _ _ _ _ h4 q with e4 | e4 | e4
  · rcases scan_values k _ _ _ _ _ _ h3 q with e3 | e3 | e3
    · rcases scan_values k _ _ _ _ _ _ h2 q with e2 | e2 | e2
      · rcases scan_values k _ _ _ _ _ _ h1 q with e1 | e1 | e1
        · exact Or.inl (by rw [e4, e3, e2, e1])
        · exact Or.inr (Or.inl (by rw [e4, e3, e2, e1]))
        · exact Or.inr (Or.inr (by rw [e4, e3, e2, e1]))
      · exact Or.inr (Or.inl (by rw [e4, e3, e2]))
      · exact Or.inr (Or.inr (by rw [e4, e3, e2]))
    · exact Or.inr (Or.inl (by rw [e4, e3]))
    · exact Or.inr (Or.inr (by rw [e4, e3]))
  · exact Or.inr (Or.inl e4)
  · exact Or.inr (Or.inr e4)

/-- Claim C6, the claim as stated fails when a monster reaches the player: with a
monster directly to the right of the player the call returns `true` and the
player's cell holds `TILE_MONSTER`, so no cell holds the marker. -/
theorem doMonsterAttack_marker_overwritten :
    sampleConsts.WF ∧ Rect 1 2 [['o', 'M']] ∧ InBounds 1 2 0 0 ∧
    MarkerAt sampleConsts [['o', 'M']] ⟨0, 0, 0⟩ ∧
    doMonsterAttack sampleConsts [['o', 'M']] 1 2 ⟨0, 0, 0⟩ =
      some ⟨[['M', '-']], ⟨0, 0, 0⟩, true⟩ ∧
    ¬ MarkerAt sampleConsts [['M', '-']] ⟨0, 0, 0⟩ := by
  decide

/-- Claim C6 (amended): the marker invariant is kept by the monster advance when no
monster stands on a cell cardinally adjacent to the player.  In a
`maxRow x maxCol` map with the player in bounds and the marker on the player's
cell and on no other cell, `doMonsterAttack` returns, the player is unchanged,
and the marker is again on the player's cell and on no other cell. -/
theorem doMonsterAttack_marker (k : Consts) (hk : k.WF) (map : Grid) (maxRow maxCol : Int)
    (player : Player) (hrect : Rect maxRow maxCol map)
    (hp : InBounds maxRow maxCol player.row player.col)
    (hmark : MarkerAt k map player)
    (hup : readCell map (player.row - 1) player.col ≠ some k.TILE_MONSTER)
    (hdown : readCell map (player.row + 1) player.col ≠ some k.TILE_MONSTER)
    (hleft : readCell map player.row (player.col - 1) ≠ some k.TILE_MONSTER)
    (hright : readCell map player.row (player.col + 1) ≠ some k.TILE_MONSTER) :
    ∃ res, doMonsterAttack k map maxRow maxCol player = some res ∧
      res.player = player ∧ MarkerAt k res.map res.player := by
  have hd := hk.distinct
  have hhead : readCell map player.row player.col ≠ some k.TILE_MONSTER := by
    rw [hmark.1]; intro e; have := Option.some.inj e; simp [hd] at this
  obtain ⟨res, hres⟩ := doMonsterAttack_defined k hk map maxRow maxCol player hrect hp hhead
    (fun e => absurd e hdown)
  obtain ⟨m1, m2, m3, t, h1, h2, h3, h4, ht, hpl, _⟩ := doMonsterAttack_eq_some hres
  have cinj := colCell_injective player
  have rinj := rowCell_injective player
  -- what each scan keeps, given that its first two cells hold no monster
  have keep1 : ∀ q : Int × Int, (q.2 ≠ player.col ∨ player.row ≤ q.1) →
      readAt m1 q = readAt map q := by
    intro q hq
    have hq1 : ∀ j : Nat, 1 ≤ j → j < (player.row + 1).toNat →
        q ≠ colCell player (player.row + j * -1) := by
      intro j hj _ e
      rw [e] at hq
      simp only [colCell] at hq
      omega
    exact scan_frame_head2 k (colCell player) (-1) cinj (Or.inr rfl) _ _ map m1 hhead hup h1 q hq1
  have head1 : readAt m1 (player.row, player.col) = some k.TILE_PLAYER := by
    rw [keep1 _ (Or.inr (le_refl _))]; exact hmark.1
  have keep2 : ∀ q : Int × Int, (q.2 ≠ player.col ∨ q.1 ≤ player.row) →
      readAt m2 q = readAt m1 q := by
    intro q hq
    have hq1 : ∀ j : Nat, 1 ≤ j → j < (maxRow - player.row).toNat →
        q ≠ colCell player (player.row + j * 1) := by
      intro j hj _ e
      rw [e] at hq
      simp only [colCell] at hq
      omega
    refine scan_frame_head2 k (colCell player) 1 cinj (Or.inl rfl) _ _ m1 m2 ?_ ?_ h2 q hq1
    · show readAt m1 (player.row, player.col) ≠ some k.TILE_MONSTER
      rw [head1]; intro e; have := Option.some.inj e; simp [hd] at this
    · show readAt m1 (player.row + 1, player.col) ≠ some k.TILE_MONSTER
      rw [keep1 _ (Or.inr (by simp))]; exact hdown
  have head2 : readAt m2 (player.row, player.col) = some k.TILE_PLAYER := by
    rw [keep2 _ (Or.inr (le_refl _))]; exact head1
  have keep3 : ∀ q : Int × Int, (q.1 ≠ player.row ∨ player.col ≤ q.2) →
      readAt m3 q = readAt m2 q := by
    intro q hq
    have hq1 : ∀ j : Nat, 1 ≤ j → j < (player.col + 1).toNat →
        q ≠ rowCell player (player.col + j * -1) := by
      intro j hj _ e
      rw [e] at hq
      simp only [rowCell] at hq
      omega
    refine scan_frame_head2 k (rowCell player) (-1) rinj (Or.inr rfl) _ _ m2 m3 ?_ ?_ h3 q hq1
    · show readAt m2 (player.row, player.col) ≠ some k.TILE_MONSTER
      rw [head2]; intro e; have := Option.some.inj e; simp [hd] at this
    · show readAt m2 (player.row, player.col + -1) ≠ some k.TILE_MONSTER
      rw [keep2 _ (Or.inr (le_refl _)), keep1 _ (Or.inr (le_refl _))]; exact hleft
  have head3 : readAt m3 (player.row, player.col) = some k.TILE_PLAYER := by
    rw [keep3 _ (Or.inr (le_refl _))]; exact head2
  have keep4 : ∀ q : Int × Int, (q.1 ≠ player.row ∨ q.2 ≤ player.col) →
      readAt res.map q = readAt m3 q := by
    intro q hq
    have hq1 : ∀ j : Nat, 1 ≤ j → j < (maxCol - player.col).toNat →
        q ≠ rowCell player (player.col + j * 1) := by
      intro j hj _ e
      rw [e] at hq
      simp only [rowCell] at hq
      omega
    refine scan_frame_head2 k (rowCell player) 1 rinj (Or.inl rfl) _ _ m3 res.map ?_ ?_ h4 q hq1
    · show readAt m3 (player.row, player.col) ≠ some k.TILE_MONSTER
      rw [head3]; intro e; have := Option.some.inj e; simp [hd] at this
    · show readAt m3 (player.row, player.col + 1) ≠ some k.TILE_MONSTER
      rw [keep3 _ (Or.inr (by simp)), keep2 _ (Or.inr (le_refl _)),
        keep1 _ (Or.inr (le_refl _))]
      exact hright
  refine ⟨res, hres, hpl, ?_, ?_⟩
  · rw [hpl]
    show readAt res.map (player.row, player.col) = some k.TILE_PLAYER
    rw [keep4 _ (Or.inr (le_refl _))]; exact head3
  · intro r c hrc
    rw [hpl]
    apply hmark.2
    rcases doMonsterAttack_values hres (r, c) with e | e | e
    · have h5 : readAt res.map (r, c) = some k.TILE_PLAYER := hrc
      rw [e] at h5; exact h5
    · have h5 : readAt res.map (r, c) = some k.TILE_PLAYER := hrc
      rw [e] at h5; have := Option.some.inj h5; simp [hd] at this
    · have h5 : readAt res.map (r, c) = some k.TILE_PLAYER := hrc
      rw [e] at h5; have := Option.some.inj h5; simp [hd] at this

/-- An instance of C6 (amended): a monster two cells to the right of the
player. -/
theorem doMonsterAttack_marker_witness :
    (sampleConsts.WF ∧ Rect 1 3 [['o', '-', 'M']] ∧ InBounds 1 3 0 0 ∧
      MarkerAt sampleConsts [['o', '-', 'M']] ⟨0, 0, 0⟩ ∧
      readCell [['o', '-', 'M']] (0 - 1) 0 ≠ some sampleConsts.TILE_MONSTER ∧
      readCell [['o', '-', 'M']] (0 + 1) 0 ≠ some sampleConsts.TILE_MONSTER ∧
      readCell [['o', '-', 'M']] 0 (0 - 1) ≠ some sampleConsts.TILE_MONSTER ∧
      readCell [['o', '-', 'M']] 0 (0 + 1) ≠ some sampleConsts.TILE_MONSTER) ∧
    ∃ res, doMonsterAttack sampleConsts [['o', '-', 'M']] 1 3 ⟨0, 0, 0⟩ = some res ∧
      res.player = ⟨0, 0, 0⟩ ∧ MarkerAt sampleConsts res.map res.player :=
  ⟨⟨by decide, by decide, by decide, by decide, by decide, by decide, by decide, by decide⟩,
    doMonsterAttack_marker sampleConsts (by decide) [['o', '-', 'M']] 1 3 ⟨0, 0, 0⟩
      (by decide) (by decide) (by decide) (by decide) (by decide) (by decide) (by decide)⟩

/-! ## Cells of a ray beyond the sighted monsters -/

/-- A scanning loop leaves unchanged the cells of its own ray beyond offset `d`
when every monster beyond `d` is hidden behind a pillar beyond `d`. -/
theorem scan_far_own (k : Consts) (cell : Int → Int × Int) (step : Int)
    (hinj : Function.Injective cell) (hstep : step = 1 ∨ step = -1)
    (n : Nat) (i : Int) (m m1 : Grid)
    (h : forLoop step (rayBody k cell step) n i m = some m1) (d : Nat)
    (H : ∀ j : Nat, d < j → readAt m (cell (i + j * step)) = some k.TILE_MONSTER →
      ∃ j1 : Nat, d < j1 ∧ j1 < j ∧ readAt m (cell (i + j1 * step)) = some k.TILE_PILLAR)
    (j : Nat) (hj : d < j) :
    readAt m1 (cell (i + j * step)) = readAt m (cell (i + j * step)) := by
  apply scan_frame k cell step hinj hstep n (d + 1) i m m1 h
  · intro j2 h1 _ hm
    obtain ⟨j1, g1, g2, g3⟩ := H j2 (by omega) hm
    exact ⟨j1, by omega, g2, g3⟩
  · intro j2 hj2
    constructor
    · apply cell_ne_of_offset hinj
      rcases hstep with rfl | rfl <;> omega
    · apply cell_ne_of_offset hinj
      rcases hstep with rfl | rfl <;> omega

/-- A scanning loop leaves unchanged the cells of the opposite ray from
distance 2 on. -/
theorem scan_far_opposite (k : Consts) (cell : Int → Int × Int) (step : Int)
    (hinj : Function.Injective cell) (hstep : step = 1 ∨ step = -1)
    (n : Nat) (i : Int) (m m1 : Grid)
    (h : forLoop step (rayBody k cell step) n i m = some m1)
    (j : Nat) (hj : 2 ≤ j) :
    readAt m1 (cell (i - j * step)) = readAt m (cell (i - j * step)) := by
  apply scan_frame_all k cell step hinj hstep n i m m1 h
  intro j2 _
  constructor
  · apply cell_ne_of_offset hinj
    rcases hstep with rfl | rfl <;> omega
  · apply cell_ne_of_offset hinj
    rcases hstep with rfl | rfl <;> omega

/-- A scanning loop leaves unchanged every position off its line. -/
theorem scan_far_other (k : Consts) (cell : Int → Int × Int) (step : Int)
    (hinj : Function.Injective cell) (hstep : step = 1 ∨ step = -1)
    (n : Nat) (i : Int) (m m1 : Grid)
    (h : forLoop step (rayBody k cell step) n i m = some m1)
    (q : Int × Int) (hq : ∀ x : Int, q ≠ cell x) :
    readAt m1 q = readAt m q :=
  scan_frame_all k cell step hinj hstep n i m m1 h q (fun _ _ => ⟨hq _, hq _⟩)

theorem rayCell_up (player : Player) (j : Int) :
    rayCell player Dir.up j = colCell player (player.row + j * -1) := by
  simp [rayCell, colCell, Dir.dRow, Dir.dCol]

theorem rayCell_down (player : Player) (j : Int) :
    rayCell player Dir.down j = colCell player (player.row + j * 1) := by
  simp [rayCell, colCell, Dir.dRow, Dir.dCol]

theorem rayCell_left (player : Player) (j : Int) :
    rayCell player Dir.left j = rowCell player (player.col + j * -1) := by
  simp [rayCell, rowCell, Dir.dRow, Dir.dCol]

theorem rayCell_right (player : Player) (j : Int) :
    rayCell player Dir.right j = rowCell player (player.col + j * 1) := by
  simp [rayCell, rowCell, Dir.dRow, Dir.dCol]

/-- One scan along the player's column keeps the far cells of any ray: `sgn`
is the step of the scan. -/
theorem colScan_far (k : Consts) (player : Player) (step : Int) (hstep : step = 1 ∨ step = -1)
    (sdir : Dir) (hsdir : ∀ j : Int, rayCell player sdir j = colCell player (player.row + j * step))
    (odir : Dir)
    (hodir : ∀ j : Int, rayCell player odir j = colCell player (player.row - j * step))
    (hdirs : ∀ dir : Dir, dir = sdir ∨ dir = odir ∨ dir = Dir.left ∨ dir = Dir.right)
    (n : Nat) (m m1 : Grid)
    (h : forLoop step (rayBody k (colCell player) step) n player.row m = some m1)
    (dir : Dir) (d : Nat) (hd : 1 ≤ d)
    (H : ∀ j : Nat, d < j → readAt m (rayCell player dir j) = some k.TILE_MONSTER →
      ∃ j1 : Nat, d < j1 ∧ j1 < j ∧ readAt m (rayCell player dir j1) = some k.TILE_PILLAR)
    (j : Nat) (hj : d < j) :
    readAt m1 (rayCell player dir j) = readAt m (rayCell player dir j) := by
  have cinj := colCell_injective player
  rcases hdirs dir with rfl | rfl | rfl | rfl
  · simp only [hsdir] at H ⊢
    exact scan_far_own k (colCell player) step cinj hstep n player.row m m1 h d H j hj
  · simp only [hodir]
    exact scan_far_opposite k (colCell player) step cinj hstep n player.row m m1 h j (by omega)
  · apply scan_far_other k (colCell player) step cinj hstep n player.row m m1 h
    intro x
    simp only [rayCell, colCell, Dir.dRow, Dir.dCol, ne_eq, Prod.mk.injEq, not_and]
    intro _; omega
  · apply scan_far_other k (colCell player) step cinj hstep n player.row m m1 h
    intro x
    simp only [rayCell, colCell, Dir.dRow, Dir.dCol, ne_eq, Prod.mk.injEq, not_and]
    intro _; omega

/-- One scan along the player's row keeps the far cells of any ray. -/
theorem rowScan_far (k : Consts) (player : Player) (step : Int) (hstep : step = 1 ∨ step = -1)
    (sdir : Dir) (hsdir : ∀ j : Int, rayCell player sdir j = rowCell player (player.col + j * step))
    (odir : Dir)
    (hodir : ∀ j : Int, rayCell player odir j = rowCell player (player.col - j * step))
    (hdirs : ∀ dir : Dir, dir = sdir ∨ dir = odir ∨ dir = Dir.up ∨ dir = Dir.down)
    (n : Nat) (m m1 : Grid)
    (h : forLoop step (rayBody k (rowCell player) step) n player.col m = some m1)
    (dir : Dir) (d : Nat) (hd : 1 ≤ d)
    (H : ∀ j : Nat, d < j → readAt m (rayCell player dir j) = some k.TILE_MONSTER →
      ∃ j1 : Nat, d < j1 ∧ j1 < j ∧ readAt m (rayCell player dir j1) = some k.TILE_PILLAR)
    (j : Nat) (hj : d < j) :
    readAt m1 (rayCell player dir j) = readAt m (rayCell player dir j) := by
  have rinj := rowCell_injective player
  rcases hdirs dir with rfl | rfl | rfl | rfl
  · simp only [hsdir] at H ⊢
    exact scan_far_own k (rowCell player) step rinj hstep n player.col m m1 h d H j hj
  · simp only [hodir]
    exact scan_far_opposite k (rowCell player) step rinj hstep n player.col m m1 h j (by omega)
  · apply scan_far_other k (rowCell player) step rinj hstep n player.col m m1 h
    intro x
    simp only [rayCell, rowCell, Dir.dRow, Dir.dCol, ne_eq, Prod.mk.injEq]
    intro e; omega
  · apply scan_far_other k (rowCell player) step rinj hstep n player.col m m1 h
    intro x
    simp only [rayCell, rowCell, Dir.dRow, Dir.dCol, ne_eq, Prod.mk.injEq]
    intro e; omega

theorem dir_cases_up (dir : Dir) :
    dir = Dir.up ∨ dir = Dir.down ∨ dir = Dir.left ∨ dir = Dir.right := by
  cases dir <;> simp

theorem dir_cases_down (dir : Dir) :
    dir = Dir.down ∨ dir = Dir.up ∨ dir = Dir.left ∨ dir = Dir.right := by
  cases dir <;> simp

theorem dir_cases_left (dir : Dir) :
    dir = Dir.left ∨ dir = Dir.right ∨ dir = Dir.up ∨ dir = Dir.down := by
  cases dir <;> simp

theorem dir_cases_right (dir : Dir) :
    dir = Dir.right ∨ dir = Dir.left ∨ dir = Dir.up ∨ dir = Dir.down := by
  cases dir <;> simp

/-- The hiding condition on a ray only depends on the cells beyond `d`. -/
theorem hidden_transport (k : Consts) (player : Player) (dir : Dir) (d : Nat) (m m1 : Grid)
    (E : ∀ j : Nat, d < j → readAt m1 (rayCell player dir j) = readAt m (rayCell player dir j))
    (H : ∀ j : Nat, d < j → readAt m (rayCell player dir j) = some k.TILE_MONSTER →
      ∃ j1 : Nat, d < j1 ∧ j1 < j ∧ readAt m (rayCell player dir j1) = some k.TILE_PILLAR) :
    ∀ j : Nat, d < j → readAt m1 (rayCell player dir j) = some k.TILE_MONSTER →
      ∃ j1 : Nat, d < j1 ∧ j1 < j ∧ readAt m1 (rayCell player dir j1) = some k.TILE_PILLAR := by
  intro j hj hm
  rw [E j hj] at hm
  obtain ⟨j1, g1, g2, g3⟩ := H j hj hm
  exact ⟨j1, g1, g2, by rw [E j1 g1]; exact g3⟩

/-- Whenever the call returns, the cells of a ray beyond the sighted monsters
are unchanged. -/
theorem doMonsterAttack_far_cells (k : Consts) (map : Grid) (maxRow maxCol : Int)
    (player : Player) (res : AttackResult)
    (hres : doMonsterAttack k map maxRow maxCol player = some res)
    (dir : Dir) (d : Nat) (hd : 1 ≤ d)
    (H : ∀ j : Nat, d < j → readAt map (rayCell player dir j) = some k.TILE_MONSTER →
      ∃ j1 : Nat, d < j1 ∧ j1 < j ∧ readAt map (rayCell player dir j1) = some k.TILE_PILLAR)
    (j : Nat) (hj : d < j) :
    readAt res.map (rayCell player dir j) = readAt map (rayCell player dir j) := by
  obtain ⟨m1, m2, m3, t, h1, h2, h3, h4, _, _, _⟩ := doMonsterAttack_eq_some hres
  have E1 : ∀ j : Nat, d < j →
      readAt m1 (rayCell player dir j) = readAt map (rayCell player dir j) :=
    colScan_far k player (-1) (Or.inr rfl) Dir.up (rayCell_up player) Dir.down
      (fun j => by simp [rayCell, colCell, Dir.dRow, Dir.dCol]) dir_cases_up _ map m1 h1 dir d hd H
  have H1 := hidden_transport k player dir d map m1 E1 H
  have E2 : ∀ j : Nat, d < j →
      readAt m2 (rayCell player dir j) = readAt m1 (rayCell player dir j) :=
    colScan_far k player 1 (Or.inl rfl) Dir.down (rayCell_down player) Dir.up
      (fun j => by simp [rayCell, colCell, Dir.dRow, Dir.dCol]; ring) dir_cases_down _ m1 m2 h2
      dir d hd H1
  have H2 := hidden_transport k player dir d m1 m2 E2 H1
  have E3 : ∀ j : Nat, d < j →
      readAt m3 (rayCell player dir j) = readAt m2 (rayCell player dir j) :=
    rowScan_far k player (-1) (Or.inr rfl) Dir.left (rayCell_left player) Dir.right
      (fun j => by simp [rayCell, rowCell, Dir.dRow, Dir.dCol]) dir_cases_left _ m2 m3 h3
      dir d hd H2
  have H3 := hidden_transport k player dir d m2 m3 E3 H2
  have E4 : ∀ j : Nat, d < j →
      readAt res.map (rayCell player dir j) = readAt m3 (rayCell player dir j) :=
    rowScan_far k player 1 (Or.inl rfl) Dir.right (rayCell_right player) Dir.left
      (fun j => by simp [rayCell, rowCell, Dir.dRow, Dir.dCol]; ring) dir_cases_right _ m3
      res.map h4 dir d hd H3
  rw [E4 j hj, E3 j hj, E2 j hj, E1 j hj]

/-- Claim C8, the claim as stated fails when a second monster is in sight on the same
ray: the loops have no `break` after moving a monster, so both monsters of the
rightward ray move and the cell (0,3), farther than the first monster at (0,2),
changes from `TILE_MONSTER` to `TILE_OPEN`. -/
theorem doMonsterAttack_second_monster_moves :
    sampleConsts.WF ∧ Rect 1 4 [['o', '-', 'M', 'M']] ∧ InBounds 1 4 0 0 ∧
    MarkerAt sampleConsts [['o', '-', 'M', 'M']] ⟨0, 0, 0⟩ ∧
    readAt [['o', '-', 'M', 'M']] (rayCell ⟨0, 0, 0⟩ Dir.right 1) = some sampleConsts.TILE_OPEN ∧
    readAt [['o', '-', 'M', 'M']] (rayCell ⟨0, 0, 0⟩ Dir.right 2) =
      some sampleConsts.TILE_MONSTER ∧
    readAt [['o', '-', 'M', 'M']] (rayCell ⟨0, 0, 0⟩ Dir.right 3) =
      some sampleConsts.TILE_MONSTER ∧
    doMonsterAttack sampleConsts [['o', '-', 'M', 'M']] 1 4 ⟨0, 0, 0⟩ =
      some ⟨[['o', 'M', 'M', '-']], ⟨0, 0, 0⟩, false⟩ ∧
    readAt [['o', 'M', 'M', '-']] (rayCell ⟨0, 0, 0⟩ Dir.right 3) = some sampleConsts.TILE_OPEN := by
  decide

/-- Claim C8 (amended): cells beyond the sighted monsters are untouched.  In a
`maxRow x maxCol` map satisfying the marker invariant, where a monster directly
below the player implies that the player is not in the last column, take any
ray and any distance `d >= 1` such that every monster of the ray farther than
`d` has a pillar strictly between distance `d` and itself.  Then
`doMonsterAttack` returns and every cell of the ray farther than `d` holds the
same tile as before. -/
theorem doMonsterAttack_beyond_sighted (k : Consts) (hk : k.WF) (map : Grid)
    (maxRow maxCol : Int) (player : Player) (hrect : Rect maxRow maxCol map)
    (hp : InBounds maxRow maxCol player.row player.col)
    (hmark : MarkerAt k map player)
    (hsafe : readCell map (player.row + 1) player.col = some k.TILE_MONSTER →
      player.col + 1 < maxCol)
    (dir : Dir) (d : Nat) (hd : 1 ≤ d)
    (H : ∀ j : Nat, d < j → readAt map (rayCell player dir j) = some k.TILE_MONSTER →
      ∃ j1 : Nat, d < j1 ∧ j1 < j ∧ readAt map (rayCell player dir j1) = some k.TILE_PILLAR) :
    ∃ res, doMonsterAttack k map maxRow maxCol player = some res ∧
      ∀ j : Nat, d < j →
        readAt res.map (rayCell player dir j) = readAt map (rayCell player dir j) := by
  have hdist := hk.distinct
  have hhead : readCell map player.row player.col ≠ some k.TILE_MONSTER := by
    rw [hmark.1]; intro e; have := Option.some.inj e; simp [hdist] at this
  obtain ⟨res, hres⟩ := doMonsterAttack_defined k hk map maxRow maxCol player hrect hp hhead hsafe
  exact ⟨res, hres, doMonsterAttack_far_cells k map maxRow maxCol player res hres dir d hd H⟩

/-- An instance of C8 (amended): one monster in sight at distance 2 on the
rightward ray; the cells at distances 3 and 4 keep their tiles. -/
theorem doMonsterAttack_beyond_sighted_witness :
    (sampleConsts.WF ∧ Rect 1 5 [['o', '-', 'M', '-', '$']] ∧ InBounds 1 5 0 0 ∧
      MarkerAt sampleConsts [['o', '-', 'M', '-', '$']] ⟨0, 0, 0⟩ ∧
      (readCell [['o', '-', 'M', '-', '$']] (0 + 1) 0 = some sampleConsts.TILE_MONSTER →
        (0 : Int) + 1 < 5) ∧ 1 ≤ 2 ∧
      (∀ j : Nat, 2 < j →
        readAt [['o', '-', 'M', '-', '$']] (rayCell ⟨0, 0, 0⟩ Dir.right j) =
          some sampleConsts.TILE_MONSTER →
        ∃ j1 : Nat, 2 < j1 ∧ j1 < j ∧
          readAt [['o', '-', 'M', '-', '$']] (rayCell ⟨0, 0, 0⟩ Dir.right j1) =
            some sampleConsts.TILE_PILLAR)) ∧
    ∃ res, doMonsterAttack sampleConsts [['o', '-', 'M', '-', '$']] 1 5 ⟨0, 0, 0⟩ = some res ∧
      ∀ j : Nat, 2 < j →
        readAt res.map (rayCell ⟨0, 0, 0⟩ Dir.right j) =
          readAt [['o', '-', 'M', '-', '$']] (rayCell ⟨0, 0, 0⟩ Dir.right j) :=
  have hH : ∀ j : Nat, 2 < j →
      readAt [['o', '-', 'M', '-', '$']] (rayCell ⟨0, 0, 0⟩ Dir.right j) =
        some sampleConsts.TILE_MONSTER →
      ∃ j1 : Nat, 2 < j1 ∧ j1 < j ∧
        readAt [['o', '-', 'M', '-', '$']] (rayCell ⟨0, 0, 0⟩ Dir.right j1) =
          some sampleConsts.TILE_PILLAR := by
    intro j hj hm
    exfalso
    have hb := (readCell_isSome_iff (by decide : Rect 1 5 [['o', '-', 'M', '-', '$']])
      _ _).1 (by rw [show readCell _ _ _ = _ from hm]; rfl)
    simp only [rayCell, Dir.dRow, Dir.dCol, InBounds] at hb
    have hj5 : j < 5 := by omega
    have hcases : j = 3 ∨ j = 4 := by omega
    rcases hcases with rfl | rfl
    · exact absurd hm (by decide)
    · exact absurd hm (by decide)
  ⟨⟨by decide, by decide, by decide, by decide, by decide, by decide, hH⟩,
    doMonsterAttack_beyond_sighted sampleConsts (by decide) [['o', '-', 'M', '-', '$']] 1 5
      ⟨0, 0, 0⟩ (by decide) (by decide) (by decide) (by decide) Dir.right 2 (by decide) hH⟩

/-! ## Instances on which doMonsterAttack departs from its documentation -/

/-- Claim C4 at the instance of the specification: 3x3 map, player at (1,1), monster
at (1,0).  The leftward scan moves the monster onto the player's cell; the
rightward scan, which starts on the player's cell, then moves it back to (1,0).
The call returns `false` and the player's cell holds `TILE_OPEN`. -/
theorem doMonsterAttack_left_neighbour_not_caught :
    sampleConsts.WF ∧
    Rect 3 3 [['-', '-', '-'], ['M', 'o', '-'], ['-', '-', '-']] ∧
    InBounds 3 3 1 1 ∧
    MarkerAt sampleConsts [['-', '-', '-'], ['M', 'o', '-'], ['-', '-', '-']] ⟨1, 1, 0⟩ ∧
    readCell [['-', '-', '-'], ['M', 'o', '-'], ['-', '-', '-']] 1 0 =
      some sampleConsts.TILE_MONSTER ∧
    doMonsterAttack sampleConsts [['-', '-', '-'], ['M', 'o', '-'], ['-', '-', '-']] 3 3
        ⟨1, 1, 0⟩ =
      some ⟨[['-', '-', '-'], ['M', '-', '-'], ['-', '-', '-']], ⟨1, 1, 0⟩, false⟩ ∧
    readCell [['-', '-', '-'], ['M', '-', '-'], ['-', '-', '-']] 1 1 =
      some sampleConsts.TILE_OPEN := by
  decide

/-- Claim C7 at a failing instance: 3x3 map, player at (1,1), the only monster
directly above at (0,1), that is at distance 1 on the upward ray.  The upward
scan moves it onto the player's cell and the downward scan moves it back: after
the call the nearest monster of the upward ray is again at distance 1, not 0. -/
theorem doMonsterAttack_upper_neighbour_returns :
    sampleConsts.WF ∧
    Rect 3 3 [['-', 'M', '-'], ['-', 'o', '-'], ['-', '-', '-']] ∧
    InBounds 3 3 1 1 ∧
    MarkerAt sampleConsts [['-', 'M', '-'], ['-', 'o', '-'], ['-', '-', '-']] ⟨1, 1, 0⟩ ∧
    readAt [['-', 'M', '-'], ['-', 'o', '-'], ['-', '-', '-']] (rayCell ⟨1, 1, 0⟩ Dir.up 1) =
      some sampleConsts.TILE_MONSTER ∧
    doMonsterAttack sampleConsts [['-', 'M', '-'], ['-', 'o', '-'], ['-', '-', '-']] 3 3
        ⟨1, 1, 0⟩ =
      some ⟨[['-', 'M', '-'], ['-', '-', '-'], ['-', '-', '-']], ⟨1, 1, 0⟩, false⟩ ∧
    readAt [['-', 'M', '-'], ['-', '-', '-'], ['-', '-', '-']] (rayCell ⟨1, 1, 0⟩ Dir.up 0) =
      some sampleConsts.TILE_OPEN ∧
    readAt [['-', 'M', '-'], ['-', '-', '-'], ['-', '-', '-']] (rayCell ⟨1, 1, 0⟩ Dir.up 1) =
      some sampleConsts.TILE_MONSTER := by
  decide

/-- Claim C9 at a failing instance: 2x3 map, player at (0,0), a pillar at (0,1) with a
monster behind it at (0,2), and a monster directly below the player at (1,0).
The downward scan brings the lower monster onto the player's cell, the leftward
scan moves it to (0,1) over the pillar, and the rightward scan then moves both
monsters: the pillar is gone and the cell behind it has changed. -/
theorem doMonsterAttack_pillar_overwritten :
    sampleConsts.WF ∧
    Rect 2 3 [['o', '+', 'M'], ['M', '-', '-']] ∧
    InBounds 2 3 0 0 ∧
    MarkerAt sampleConsts [['o', '+', 'M'], ['M', '-', '-']] ⟨0, 0, 0⟩ ∧
    readAt [['o', '+', 'M'], ['M', '-', '-']] (rayCell ⟨0, 0, 0⟩ Dir.right 1) =
      some sampleConsts.TILE_PILLAR ∧
    readAt [['o', '+', 'M'], ['M', '-', '-']] (rayCell ⟨0, 0, 0⟩ Dir.right 2) =
      some sampleConsts.TILE_MONSTER ∧
    doMonsterAttack sampleConsts [['o', '+', 'M'], ['M', '-', '-']] 2 3 ⟨0, 0, 0⟩ =
      some ⟨[['M', 'M', '-'], ['-', '-', '-']], ⟨0, 0, 0⟩, true⟩ ∧
    readAt [['M', 'M', '-'], ['-', '-', '-']] (rayCell ⟨0, 0, 0⟩ Dir.right 1) =
      some sampleConsts.TILE_MONSTER ∧
    readAt [['M', 'M', '-'], ['-', '-', '-']] (rayCell ⟨0, 0, 0⟩ Dir.right 2) =
      some sampleConsts.TILE_OPEN := by
  decide

/-! ## createMap and resizeMap -/

/-- Loop rule for `forRange`: an invariant that holds at index 0 and is carried
by every iteration, each of which returns, holds at index `n` after the loop,
which returns. -/
theorem forRange_inv {σ : Type} (n : Int) (body : Int → σ → Option σ)
    (I : Int → σ → Prop) (s : σ) (hn : 0 ≤ n) (h0 : I 0 s)
    (hstep : ∀ i s1, 0 ≤ i → i < n → I i s1 → ∃ s2, body i s1 = some s2 ∧ I (i + 1) s2) :
    ∃ s1, forRange n body s = some s1 ∧ I n s1 := by
  have aux : ∀ (cnt : Nat) (i : Int) (s1 : σ), 0 ≤ i → i + cnt = n → I i s1 →
      ∃ s2, forLoop 1 (fun i t => (body i t).map (fun t1 => (t1, false))) cnt i s1 = some s2 ∧
        I n s2 := by
    intro cnt
    induction cnt with
    | zero =>
      intro i s1 _ hi hI
      have : i = n := by simpa using hi
      exact ⟨s1, rfl, this ▸ hI⟩
    | succ cnt ih =>
      intro i s1 hi0 hi hI
      obtain ⟨s2, hb, hI2⟩ := hstep i s1 hi0 (by push_cast at hi; omega) hI
      obtain ⟨s3, h3, hI3⟩ := ih (i + 1) s2 (by omega) (by push_cast at hi; omega) hI2
      exact ⟨s3, by simp [forLoop, hb, h3], hI3⟩
  unfold forRange
  exact aux n.toNat 0 s (le_refl 0) (by omega) h0

/-- The copy loops of `resizeMap`: when the source is `maxRow x maxCol` and the
block at offset `(dr, dc)` fits in the destination, the copy returns; the block
holds the source and every other cell of the destination is unchanged. -/
theorem copyInto_spec (map : Grid) (maxRow maxCol dr dc : Int) (newmap : Grid)
    (bigRow bigCol : Int) (hmap : Rect maxRow maxCol map) (hnew : Rect bigRow bigCol newmap)
    (hR : 0 ≤ maxRow) (hC : 0 ≤ maxCol) (hdr : 0 ≤ dr) (hdc : 0 ≤ dc)
    (hfr : dr + maxRow ≤ bigRow) (hfc : dc + maxCol ≤ bigCol) :
    ∃ nm, copyInto map maxRow maxCol dr dc newmap = some nm ∧ Rect bigRow bigCol nm ∧
      ∀ r c, readCell nm r c =
        if dr ≤ r ∧ r < dr + maxRow ∧ dc ≤ c ∧ c < dc + maxCol then
          readCell map (r - dr) (c - dc)
        else readCell newmap r c := by
  unfold copyInto
  apply forRange_inv maxRow _ (fun i a => Rect bigRow bigCol a ∧
      ∀ r c, readCell a r c =
        if dr ≤ r ∧ r < dr + i ∧ dc ≤ c ∧ c < dc + maxCol then
          readCell map (r - dr) (c - dc)
        else readCell newmap r c) newmap hR
  · refine ⟨hnew, ?_⟩
    intro r c
    have : ¬ (dr ≤ r ∧ r < dr + 0 ∧ dc ≤ c ∧ c < dc + maxCol) := by omega
    rw [if_neg this]
  · intro i a hi0 hi ⟨ha, hread⟩
    have inner := forRange_inv maxCol
      (fun j b =>
        match readCell map i j with
        | none => none
        | some v => writeCell b (i + dr) (j + dc) v)
      (fun j b => Rect bigRow bigCol b ∧
        ∀ r c, readCell b r c =
          if r = i + dr ∧ dc ≤ c ∧ c < dc + j then readCell map i (c - dc)
          else readCell a r c) a hC
      (by
        refine ⟨ha, ?_⟩
        intro r c
        have : ¬ (r = i + dr ∧ dc ≤ c ∧ c < dc + 0) := by omega
        rw [if_neg this])
      (by
        intro j b hj0 hj ⟨hb, hreadb⟩
        obtain ⟨v, hv⟩ := Option.isSome_iff_exists.mp
          ((readCell_isSome_iff hmap i j).2 ⟨hi0, hi, hj0, hj⟩)
        obtain ⟨b1, hb1⟩ := writeCell_isSome v
          ((readCell_isSome_iff hb (i + dr) (j + dc)).2
            ⟨by omega, by omega, by omega, by omega⟩)
        refine ⟨b1, by simp only [hv]; exact hb1, writeCell_rect hb hb1, ?_⟩
        intro r c
        rw [readCell_writeCell hb1, hreadb]
        by_cases e1 : r = i + dr ∧ c = j + dc
        · obtain ⟨rfl, rfl⟩ := e1
          have : (i + dr = i + dr ∧ dc ≤ j + dc ∧ j + dc < dc + (j + 1)) := by omega
          rw [if_pos ⟨rfl, rfl⟩, if_pos this, ← hv]
          congr 1
          omega
        · rw [if_neg e1]
          by_cases e2 : r = i + dr ∧ dc ≤ c ∧ c < dc + j
          · have : r = i + dr ∧ dc ≤ c ∧ c < dc + (j + 1) := by omega
            rw [if_pos e2, if_pos this]
          · have : ¬ (r = i + dr ∧ dc ≤ c ∧ c < dc + (j + 1)) := by omega
            rw [if_neg e2, if_neg this])
    obtain ⟨b, hb, hrb, hreadb⟩ := inner
    refine ⟨b, hb, hrb, ?_⟩
    intro r c
    rw [hreadb, hread]
    by_cases e1 : r = i + dr ∧ dc ≤ c ∧ c < dc + maxCol
    · have : dr ≤ r ∧ r < dr + (i + 1) ∧ dc ≤ c ∧ c < dc + maxCol := by omega
      rw [if_pos e1, if_pos this]
      have : r - dr = i := by omega
      rw [this]
    · rw [if_neg e1]
      by_cases e2 : dr ≤ r ∧ r < dr + i ∧ dc ≤ c ∧ c < dc + maxCol
      · have : dr ≤ r ∧ r < dr + (i + 1) ∧ dc ≤ c ∧ c < dc + maxCol := by omega
        rw [if_pos e2, if_pos this]
      · have : ¬ (dr ≤ r ∧ r < dr + (i + 1) ∧ dc ≤ c ∧ c < dc + maxCol) := by omega
        rw [if_neg e2, if_neg this]

/-- The rewrite loop of `resizeMap` on a `2 maxRow x 2 maxCol` map returns, and
every cell holding the character `o` is rewritten to `-`, the others being
unchanged. -/
theorem rewriteO_spec (maxRow maxCol : Int) (newmap : Grid)
    (hnew : Rect (maxRow * 2) (maxCol * 2) newmap) (hR : 0 ≤ maxRow) (hC : 0 ≤ maxCol) :
    ∃ nm, rewriteO maxRow maxCol newmap = some nm ∧ Rect (maxRow * 2) (maxCol * 2) nm ∧
      ∀ r c, readCell nm r c =
        if readCell newmap r c = some 'o' then some '-' else readCell newmap r c := by
  unfold rewriteO
  have key := forRange_inv (maxRow * 2)
    (fun i a =>
      forRange (maxCol * 2) (fun j b =>
        match readCell b i j with
        | none => none
        | some v => if v = 'o' then writeCell b i j '-' else some b) a)
    (fun i a => Rect (maxRow * 2) (maxCol * 2) a ∧
      ∀ r c, readCell a r c =
        if r < i ∧ readCell newmap r c = some 'o' then some '-' else readCell newmap r c)
    newmap (by omega)
    (by
      refine ⟨hnew, ?_⟩
      intro r c
      by_cases e : r < 0
      · have : readCell newmap r c = none := by
          simp only [readCell]
          rw [if_neg (by omega)]
        simp [this]
      · have : ¬ (r < 0 ∧ readCell newmap r c = some 'o') := fun h => e h.1
        rw [if_neg this])
    (by
      intro i a hi0 hi ⟨ha, hread⟩
      have inner := forRange_inv (maxCol * 2)
        (fun j b =>
          match readCell b i j with
          | none => none
          | some v => if v = 'o' then writeCell b i j '-' else some b)
        (fun j b => Rect (maxRow * 2) (maxCol * 2) b ∧
          ∀ r c, readCell b r c =
            if (r < i ∨ (r = i ∧ c < j)) ∧ readCell newmap r c = some 'o' then some '-'
            else readCell newmap r c) a (by omega)
        (by
          refine ⟨ha, ?_⟩
          intro r c
          rw [hread]
          by_cases e : readCell newmap r c = some 'o'
          · by_cases e1 : r < i
            · rw [if_pos ⟨e1, e⟩, if_pos ⟨Or.inl e1, e⟩]
            · by_cases e2 : c < 0
              · have : readCell newmap r c = none := by
                  simp only [readCell]
                  rw [if_neg (by omega)]
                rw [this] at e
                exact absurd e (by simp)
              · have h1 : ¬ (r < i ∧ readCell newmap r c = some 'o') := fun h => e1 h.1
                have h2 : ¬ ((r < i ∨ (r = i ∧ c < 0)) ∧ readCell newmap r c = some 'o') := by
                  rintro ⟨h | h, _⟩
                  · exact e1 h
                  · exact e2 h.2
                rw [if_neg h1, if_neg h2]
          · have h1 : ¬ (r < i ∧ readCell newmap r c = some 'o') := fun h => e h.2
            have h2 : ¬ ((r < i ∨ (r = i ∧ c < 0)) ∧ readCell newmap r c = some 'o') :=
              fun h => e h.2
            rw [if_neg h1, if_neg h2])
        (by
          intro j b hj0 hj ⟨hb, hreadb⟩
          have hin : (readCell b i j).isSome :=
            (readCell_isSome_iff hb i j).2 ⟨hi0, hi, hj0, hj⟩
          obtain ⟨v, hv⟩ := Option.isSome_iff_exists.mp hin
          have hvnew : readCell newmap i j = some v := by
            have := hreadb i j
            rw [hv] at this
            have hno : ¬ ((i < i ∨ (i = i ∧ j < j)) ∧ readCell newmap i j = some 'o') := by
              rintro ⟨h | h, _⟩ <;> omega
            rw [if_neg hno] at this
            exact this.symm
          by_cases e : v = 'o'
          · obtain ⟨b1, hb1⟩ := writeCell_isSome '-' hin
            refine ⟨b1, by simp only [hv, if_pos e]; exact hb1, writeCell_rect hb hb1, ?_⟩
            intro r c
            rw [readCell_writeCell hb1, hreadb]
            by_cases e1 : r = i ∧ c = j
            · obtain ⟨rfl, rfl⟩ := e1
              have : (r < r ∨ (r = r ∧ c < c + 1)) ∧ readCell newmap r c = some 'o' :=
                ⟨Or.inr ⟨rfl, by omega⟩, by rw [hvnew, e]⟩
              rw [if_pos ⟨rfl, rfl⟩, if_pos this]
            · rw [if_neg e1]
              by_cases e2 : readCell newmap r c = some 'o'
              · by_cases e3 : r < i ∨ (r = i ∧ c < j)
                · have : r < i ∨ (r = i ∧ c < j + 1) := by omega
                  rw [if_pos ⟨e3, e2⟩, if_pos ⟨this, e2⟩]
                · have : ¬ (r < i ∨ (r = i ∧ c < j + 1)) := by omega
                  rw [if_neg (fun h => e3 h.1), if_neg (fun h => this h.1)]
              · rw [if_neg (fun h => e2 h.2), if_neg (fun h => e2 h.2)]
          · refine ⟨b, by simp only [hv, if_neg e], hb, ?_⟩
            intro r c
            rw [hreadb]
            by_cases e2 : readCell newmap r c = some 'o'
            · by_cases e3 : r < i ∨ (r = i ∧ c < j)
              · have : r < i ∨ (r = i ∧ c < j + 1) := by omega
                rw [if_pos ⟨e3, e2⟩, if_pos ⟨this, e2⟩]
              · have hne : ¬ (r = i ∧ c = j) := by
                  rintro ⟨rfl, rfl⟩
                  rw [hvnew] at e2
                  exact e (Option.some.inj e2)
                have : ¬ (r < i ∨ (r = i ∧ c < j + 1)) := by omega
                rw [if_neg (fun h => e3 h.1), if_neg (fun h => this h.1)]
            · rw [if_neg (fun h => e2 h.2), if_neg (fun h => e2 h.2)])
      obtain ⟨b, hb, hrb, hreadb⟩ := inner
      refine ⟨b, hb, hrb, ?_⟩
      intro r c
      rw [hreadb]
      by_cases e2 : readCell newmap r c = some 'o'
      · have hin := (readCell_isSome_iff hnew r c).1 (by rw [e2]; rfl)
        obtain ⟨_, _, _, hc⟩ := hin
        by_cases e3 : r < i + 1
        · have : r < i ∨ (r = i ∧ c < maxCol * 2) := by omega
          rw [if_pos ⟨this, e2⟩, if_pos ⟨e3, e2⟩]
        · have : ¬ (r < i ∨ (r = i ∧ c < maxCol * 2)) := by omega
          rw [if_neg (fun h => this h.1), if_neg (fun h => e3 h.1)]
      · rw [if_neg (fun h => e2 h.2), if_neg (fun h => e2 h.2)])
  obtain ⟨nm, h1, h2, h3⟩ := key
  refine ⟨nm, h1, h2, ?_⟩
  intro r c
  rw [h3]
  by_cases e2 : readCell newmap r c = some 'o'
  · have hin := (readCell_isSome_iff hnew r c).1 (by rw [e2]; rfl)
    rw [if_pos ⟨hin.2.1, e2⟩, if_pos e2]
  · rw [if_neg (fun h => e2 h.2), if_neg e2]

/-- The map returned by `createMap` for non-negative dimensions: a
`maxRow x maxCol` map whose cells all hold `TILE_OPEN`. -/
theorem createMap_spec (k : Consts) (maxRow maxCol : Int) (hR : 0 ≤ maxRow) (hC : 0 ≤ maxCol) :
    ∃ nm, createMap k maxRow maxCol = some nm ∧ Rect maxRow maxCol nm ∧
      ∀ r c, InBounds maxRow maxCol r c → readCell nm r c = some k.TILE_OPEN := by
  have hary : Rect maxRow maxCol
      (List.replicate maxRow.toNat (List.replicate maxCol.toNat (Char.ofNat 0))) := by
    refine ⟨by simp only [List.length_replicate]; omega, ?_⟩
    intro cells hcells
    rw [(List.mem_replicate.mp hcells).2]
    simp only [List.length_replicate]; omega
  unfold createMap
  rw [if_neg (by omega)]
  have key := forRange_inv maxRow
    (fun i a => forRange maxCol (fun j b => writeCell b i j k.TILE_OPEN) a)
    (fun i a => Rect maxRow maxCol a ∧
      ∀ r c, r < i → InBounds maxRow maxCol r c → readCell a r c = some k.TILE_OPEN)
    (List.replicate maxRow.toNat (List.replicate maxCol.toNat (Char.ofNat 0))) hR
    (by
      refine ⟨hary, ?_⟩
      intro r c h1 h2
      unfold InBounds at h2
      omega)
    (by
      intro i a hi0 hi ⟨ha, hread⟩
      have inner := forRange_inv maxCol (fun j b => writeCell b i j k.TILE_OPEN)
        (fun j b => Rect maxRow maxCol b ∧
          ∀ r c, (r < i ∨ (r = i ∧ c < j)) → InBounds maxRow maxCol r c →
            readCell b r c = some k.TILE_OPEN) a hC
        (by
          refine ⟨ha, ?_⟩
          intro r c h1 h2
          rcases h1 with h1 | h1
          · exact hread r c h1 h2
          · unfold InBounds at h2
            omega)
        (by
          intro j b hj0 hj ⟨hb, hreadb⟩
          obtain ⟨b1, hb1⟩ := writeCell_isSome k.TILE_OPEN
            ((readCell_isSome_iff hb i j).2 ⟨hi0, hi, hj0, hj⟩)
          refine ⟨b1, hb1, writeCell_rect hb hb1, ?_⟩
          intro r c h1 h2
          rw [readCell_writeCell hb1]
          by_cases e : r = i ∧ c = j
          · rw [if_pos e]
          · rw [if_neg e]
            exact hreadb r c (by omega) h2)
      obtain ⟨b, hb, hrb, hreadb⟩ := inner
      refine ⟨b, hb, hrb, ?_⟩
      intro r c h1 h2
      apply hreadb r c _ h2
      unfold InBounds at h2
      omega)
  obtain ⟨nm, h1, h2, h3⟩ := key
  refine ⟨nm, h1, h2, ?_⟩
  intro r c h
  exact h3 r c h.2.1 h

/-- The map returned by `resizeMap` for a `maxRow x maxCol` map: it is
`2 maxRow x 2 maxCol`, the top left quadrant is the old map, and every cell of
the three other quadrants holds the tile of its source cell, except that the
character `o` is replaced by `-`. -/
theorem resizeMap_spec (k : Consts) (map : Grid) (maxRow maxCol : Int)
    (hmap : Rect maxRow maxCol map) (hR : 0 ≤ maxRow) (hC : 0 ≤ maxCol) :
    ∃ nm, resizeMap k map maxRow maxCol = some (nm, maxRow * 2, maxCol * 2) ∧
      Rect (maxRow * 2) (maxCol * 2) nm ∧
      ∀ r c, InBounds (maxRow * 2) (maxCol * 2) r c →
        readCell nm r c =
          if r < maxRow ∧ c < maxCol then readCell map r c
          else if readCell map (if r < maxRow then r else r - maxRow)
              (if c < maxCol then c else c - maxCol) = some 'o' then some '-'
          else readCell map (if r < maxRow then r else r - maxRow)
              (if c < maxCol then c else c - maxCol) := by
  have e1 : 2 * maxRow = maxRow * 2 := by ring
  have e2 : 2 * maxCol = maxCol * 2 := by ring
  obtain ⟨n0, h0, r0, _⟩ := createMap_spec k (2 * maxRow) (2 * maxCol) (by omega) (by omega)
  rw [e1, e2] at r0
  obtain ⟨nB, hB, rB, cB⟩ := copyInto_spec map maxRow maxCol maxRow 0 n0 (maxRow * 2)
    (maxCol * 2) hmap r0 hR hC hR (le_refl 0) (by omega) (by omega)
  obtain ⟨nC, hC1, rC, cC⟩ := copyInto_spec map maxRow maxCol 0 maxCol nB (maxRow * 2)
    (maxCol * 2) hmap rB hR hC (le_refl 0) hC (by omega) (by omega)
  obtain ⟨nD, hD, rD, cD⟩ := copyInto_spec map maxRow maxCol maxRow maxCol nC (maxRow * 2)
    (maxCol * 2) hmap rC hR hC hR hC (by omega) (by omega)
  obtain ⟨nF, hF, rF, cF⟩ := rewriteO_spec maxRow maxCol nD rD hR hC
  obtain ⟨nA, hA, rA, cA⟩ := copyInto_spec map maxRow maxCol 0 0 nF (maxRow * 2)
    (maxCol * 2) hmap rF hR hC (le_refl 0) (le_refl 0) (by omega) (by omega)
  refine ⟨nA, ?_, rA, ?_⟩
  · unfold resizeMap
    simp only [h0, hB, hC1, hD, hF, hA]
  · intro r c ⟨hr0, hr1, hc0, hc1⟩
    rw [cA]
    by_cases q1 : r < maxRow ∧ c < maxCol
    · have : 0 ≤ r ∧ r < 0 + maxRow ∧ 0 ≤ c ∧ c < 0 + maxCol := by omega
      rw [if_pos this, if_pos q1]
      simp
    · have : ¬ (0 ≤ r ∧ r < 0 + maxRow ∧ 0 ≤ c ∧ c < 0 + maxCol) := by omega
      rw [if_neg this, if_neg q1, cF]
      have hsrc : readCell nD r c = readCell map (if r < maxRow then r else r - maxRow)
          (if c < maxCol then c else c - maxCol) := by
        rw [cD]
        by_cases q2 : maxRow ≤ r ∧ r < maxRow + maxRow ∧ maxCol ≤ c ∧ c < maxCol + maxCol
        · rw [if_pos q2, if_neg (by omega), if_neg (by omega)]
        · rw [if_neg q2, cC]
          by_cases q3 : 0 ≤ r ∧ r < 0 + maxRow ∧ maxCol ≤ c ∧ c < maxCol + maxCol
          · rw [if_pos q3, if_pos (by omega), if_neg (by omega)]
            simp
          · rw [if_neg q3, cB]
            have q4 : maxRow ≤ r ∧ r < maxRow + maxRow ∧ 0 ≤ c ∧ c < 0 + maxCol := by omega
            rw [if_pos q4, if_neg (by omega), if_pos (by omega)]
            simp
      rw [hsrc]

theorem rect_nonneg {maxRow maxCol : Int} {m : Grid} (hm : Rect maxRow maxCol m) :
    0 ≤ maxRow ∧ (maxRow = 0 ∨ 0 ≤ maxCol) := by
  obtain ⟨h1, h2⟩ := hm
  refine ⟨by omega, ?_⟩
  cases m with
  | nil => left; simpa using h1.symm
  | cons x rest =>
    right
    have := h2 x (List.mem_cons_self x rest)
    omega

/-- The map returned by `resizeMap` for every rectangular map, the empty one
included: the cell formula of `resizeMap_spec` without conditions on the
dimensions. -/
theorem resizeMap_cells (k : Consts) (map : Grid) (maxRow maxCol : Int)
    (hmap : Rect maxRow maxCol map) :
    ∃ nm, resizeMap k map maxRow maxCol = some (nm, maxRow * 2, maxCol * 2) ∧
      Rect (maxRow * 2) (maxCol * 2) nm ∧
      ∀ r c, InBounds (maxRow * 2) (maxCol * 2) r c →
        readCell nm r c =
          if r < maxRow ∧ c < maxCol then readCell map r c
          else if readCell map (if r < maxRow then r else r - maxRow)
              (if c < maxCol then c else c - maxCol) = some 'o' then some '-'
          else readCell map (if r < maxRow then r else r - maxRow)
              (if c < maxCol then c else c - maxCol) := by
  obtain ⟨hR, hC⟩ := rect_nonneg hmap
  rcases hC with h0 | hC
  · subst h0
    have hnil : map = [] := by
      have := hmap.1
      exact List.length_eq_zero.mp (by omega)
    subst hnil
    refine ⟨[], ?_, ⟨by simp, by simp⟩, ?_⟩
    · simp [resizeMap, createMap, copyInto, rewriteO, forRange, forLoop]
    · intro r c h
      unfold InBounds at h
      omega
  · exact resizeMap_spec k map maxRow maxCol hmap hR hC

/-- Claim C11, the claim as stated fails: a replicated open cell holds
`TILE_OPEN` again, not a fill tile different from it.  The only rewrite of
`resizeMap` turns the character `o` into `-`; with the player marker `o` and the
open tile `-`, the open cell (0,1) of the 1x2 map is copied unchanged to (0,3),
(1,1) and (1,3). -/
theorem resizeMap_open_stays_open :
    sampleConsts.WF ∧ Rect 1 2 [['o', '-']] ∧
    readCell [['o', '-']] 0 1 = some sampleConsts.TILE_OPEN ∧
    resizeMap sampleConsts [['o', '-']] 1 2 =
      some ([['o', '-', '-', '-'], ['-', '-', '-', '-']], 2, 4) ∧
    readCell [['o', '-', '-', '-'], ['-', '-', '-', '-']] 0 (1 + 2) =
      some sampleConsts.TILE_OPEN ∧
    readCell [['o', '-', '-', '-'], ['-', '-', '-', '-']] (0 + 1) 1 =
      some sampleConsts.TILE_OPEN ∧
    readCell [['o', '-', '-', '-'], ['-', '-', '-', '-']] (0 + 1) (1 + 2) =
      some sampleConsts.TILE_OPEN := by
  decide

/-- Claim C11 (amended): `resizeMap` copies every tile other than the player
marker unchanged into the three other quadrants.  With the player marker being
the character `o` that `resizeMap` rewrites, for every `maxRow x maxCol` map
the call returns, and each cell of the top right, bottom left and bottom right
quadrants whose source cell holds a tile other than the player marker (an open
tile in particular) holds the tile of its source cell. -/
theorem resizeMap_copies_tiles (k : Consts) (hpl : k.TILE_PLAYER = 'o') (map : Grid)
    (maxRow maxCol : Int) (hmap : Rect maxRow maxCol map) :
    ∃ newmap, resizeMap k map maxRow maxCol = some (newmap, 2 * maxRow, 2 * maxCol) ∧
      ∀ i j, 0 ≤ i → i < maxRow → 0 ≤ j → j < maxCol →
        readCell map i j ≠ some k.TILE_PLAYER →
        readCell newmap i (j + maxCol) = readCell map i j ∧
        readCell newmap (i + maxRow) j = readCell map i j ∧
        readCell newmap (i + maxRow) (j + maxCol) = readCell map i j := by
  obtain ⟨nm, h1, _, h3⟩ := resizeMap_cells k map maxRow maxCol hmap
  have e1 : 2 * maxRow = maxRow * 2 := by ring
  have e2 : 2 * maxCol = maxCol * 2 := by ring
  rw [e1, e2]
  refine ⟨nm, h1, ?_⟩
  intro i j hi0 hi hj0 hj hne
  rw [hpl] at hne
  have a1 : i + maxRow - maxRow = i := by omega
  have a2 : j + maxCol - maxCol = j := by omega
  refine ⟨?_, ?_, ?_⟩
  · rw [h3 i (j + maxCol) ⟨hi0, by omega, by omega, by omega⟩, if_neg (by omega),
      if_pos hi, if_neg (by omega : ¬ j + maxCol < maxCol), a2, if_neg hne]
  · rw [h3 (i + maxRow) j ⟨by omega, by omega, hj0, by omega⟩, if_neg (by omega),
      if_neg (by omega : ¬ i + maxRow < maxRow), if_pos hj, a1, if_neg hne]
  · rw [h3 (i + maxRow) (j + maxCol) ⟨by omega, by omega, by omega, by omega⟩,
      if_neg (by omega), if_neg (by omega : ¬ i + maxRow < maxRow),
      if_neg (by omega : ¬ j + maxCol < maxCol), a1, a2, if_neg hne]

/-- An instance of C11 (amended): a 1x2 map with the player and an open
tile. -/
theorem resizeMap_copies_tiles_witness :
    (sampleConsts.TILE_PLAYER = 'o' ∧ Rect 1 2 [['o', '-']]) ∧
    ∃ newmap, resizeMap sampleConsts [['o', '-']] 1 2 = some (newmap, 2 * 1, 2 * 2) ∧
      ∀ i j, 0 ≤ i → i < 1 → 0 ≤ j → j < 2 →
        readCell [['o', '-']] i j ≠ some sampleConsts.TILE_PLAYER →
        readCell newmap i (j + 2) = readCell [['o', '-']] i j ∧
        readCell newmap (i + 1) j = readCell [['o', '-']] i j ∧
        readCell newmap (i + 1) (j + 2) = readCell [['o', '-']] i j :=
  ⟨⟨by decide, by decide⟩,
    resizeMap_copies_tiles sampleConsts (by decide) [['o', '-']] 1 2 (by decide)⟩

/-- Claim C12: `resizeMap` does not duplicate the player.  With the player marker
being the character `o` that `resizeMap` rewrites, for every `maxRow x maxCol`
map in which the marker is on the cell `(player.row, player.col)` and on no
other cell, the call returns a map in which the marker is on that same cell,
inside the top left quadrant, and on no other cell. -/
theorem resizeMap_single_marker (k : Consts) (hpl : k.TILE_PLAYER = 'o') (map : Grid)
    (maxRow maxCol : Int) (player : Player) (hmap : Rect maxRow maxCol map)
    (hmark : MarkerAt k map player) :
    ∃ newmap, resizeMap k map maxRow maxCol = some (newmap, 2 * maxRow, 2 * maxCol) ∧
      MarkerAt k newmap player ∧ InBounds maxRow maxCol player.row player.col := by
  obtain ⟨nm, h1, h2, h3⟩ := resizeMap_cells k map maxRow maxCol hmap
  have e1 : 2 * maxRow = maxRow * 2 := by ring
  have e2 : 2 * maxCol = maxCol * 2 := by ring
  rw [e1, e2]
  have hin : InBounds maxRow maxCol player.row player.col :=
    (readCell_isSome_iff hmap _ _).1 (by rw [hmark.1]; rfl)
  obtain ⟨p1, p2, p3, p4⟩ := hin
  refine ⟨nm, h1, ⟨?_, ?_⟩, ⟨p1, p2, p3, p4⟩⟩
  · rw [h3 _ _ ⟨p1, by omega, p3, by omega⟩, if_pos ⟨p2, p4⟩]
    exact hmark.1
  · intro r c hrc
    have hb := (readCell_isSome_iff h2 r c).1 (by rw [hrc]; rfl)
    rw [h3 r c hb] at hrc
    by_cases q : r < maxRow ∧ c < maxCol
    · rw [if_pos q] at hrc
      exact hmark.2 r c hrc
    · rw [if_neg q] at hrc
      rw [hpl] at hrc
      generalize readCell map (if r < maxRow then r else r - maxRow)
        (if c < maxCol then c else c - maxCol) = src at hrc
      by_cases hs : src = some 'o'
      · rw [if_pos hs] at hrc
        exact absurd (Option.some.inj hrc) (by decide)
      · rw [if_neg hs] at hrc
        exact absurd hrc hs

/-- An instance of C12: a 2x2 map with the player at (0,0). -/
theorem resizeMap_single_marker_witness :
    (sampleConsts.TILE_PLAYER = 'o' ∧ Rect 2 2 [['o', '$'], ['-', 'M']] ∧
      MarkerAt sampleConsts [['o', '$'], ['-', 'M']] ⟨0, 0, 0⟩) ∧
    ∃ newmap, resizeMap sampleConsts [['o', '$'], ['-', 'M']] 2 2 =
        some (newmap, 2 * 2, 2 * 2) ∧
      MarkerAt sampleConsts newmap ⟨0, 0, 0⟩ ∧ InBounds 2 2 0 0 :=
  ⟨⟨by decide, by decide, by decide⟩,
    resizeMap_single_marker sampleConsts (by decide) [['o', '$'], ['-', 'M']] 2 2 ⟨0, 0, 0⟩
      (by decide) (by decide)⟩

/-- Claim C13: `resizeMap` copies the map into the three other quadrants.  With
the player marker being the character `o` and the open tile the character `-`
of the rewrite loop, for every `maxRow x maxCol` map and every cell `(i, j)` of
it, the cells `(i, j + maxCol)`, `(i + maxRow, j)` and `(i + maxRow, j + maxCol)`
of the returned map hold the tile of `(i, j)`, except that they hold `TILE_OPEN`
where `(i, j)` holds the player marker. -/
theorem resizeMap_replicas (k : Consts) (hpl : k.TILE_PLAYER = 'o') (hop : k.TILE_OPEN = '-')
    (map : Grid) (maxRow maxCol : Int) (hmap : Rect maxRow maxCol map) :
    ∃ newmap, resizeMap k map maxRow maxCol = some (newmap, 2 * maxRow, 2 * maxCol) ∧
      ∀ i j, 0 ≤ i → i < maxRow → 0 ≤ j → j < maxCol →
        readCell newmap i (j + maxCol) =
          (if readCell map i j = some k.TILE_PLAYER then some k.TILE_OPEN
            else readCell map i j) ∧
        readCell newmap (i + maxRow) j =
          (if readCell map i j = some k.TILE_PLAYER then some k.TILE_OPEN
            else readCell map i j) ∧
        readCell newmap (i + maxRow) (j + maxCol) =
          (if readCell map i j = some k.TILE_PLAYER then some k.TILE_OPEN
            else readCell map i j) := by
  obtain ⟨nm, h1, _, h3⟩ := resizeMap_cells k map maxRow maxCol hmap
  have e1 : 2 * maxRow = maxRow * 2 := by ring
  have e2 : 2 * maxCol = maxCol * 2 := by ring
  rw [e1, e2, hpl, hop]
  refine ⟨nm, h1, ?_⟩
  intro i j hi0 hi hj0 hj
  have a1 : i + maxRow - maxRow = i := by omega
  have a2 : j + maxCol - maxCol = j := by omega
  refine ⟨?_, ?_, ?_⟩
  · rw [h3 i (j + maxCol) ⟨hi0, by omega, by omega, by omega⟩, if_neg (by omega),
      if_pos hi, if_neg (by omega : ¬ j + maxCol < maxCol), a2]
  · rw [h3 (i + maxRow) j ⟨by omega, by omega, hj0, by omega⟩, if_neg (by omega),
      if_neg (by omega : ¬ i + maxRow < maxRow), if_pos hj, a1]
  · rw [h3 (i + maxRow) (j + maxCol) ⟨by omega, by omega, by omega, by omega⟩,
      if_neg (by omega), if_neg (by omega : ¬ i + maxRow < maxRow),
      if_neg (by omega : ¬ j + maxCol < maxCol), a1, a2]

/-- An instance of C13: a 2x2 map with the player at (0,0). -/
theorem resizeMap_replicas_witness :
    (sampleConsts.TILE_PLAYER = 'o' ∧ sampleConsts.TILE_OPEN = '-' ∧
      Rect 2 2 [['o', '$'], ['-', 'M']]) ∧
    ∃ newmap, resizeMap sampleConsts [['o', '$'], ['-', 'M']] 2 2 =
        some (newmap, 2 * 2, 2 * 2) ∧
      ∀ i j, 0 ≤ i → i < 2 → 0 ≤ j → j < 2 →
        readCell newmap i (j + 2) =
          (if readCell [['o', '$'], ['-', 'M']] i j = some sampleConsts.TILE_PLAYER then
            some sampleConsts.TILE_OPEN
            else readCell [['o', '$'], ['-', 'M']] i j) ∧
        readCell newmap (i + 2) j =
          (if readCell [['o', '$'], ['-', 'M']] i j = some sampleConsts.TILE_PLAYER then
            some sampleConsts.TILE_OPEN
            else readCell [['o', '$'], ['-', 'M']] i j) ∧
        readCell newmap (i + 2) (j + 2) =
          (if readCell [['o', '$'], ['-', 'M']] i j = some sampleConsts.TILE_PLAYER then
            some sampleConsts.TILE_OPEN
            else readCell [['o', '$'], ['-', 'M']] i j) :=
  ⟨⟨by decide, by decide, by decide⟩,
    resizeMap_replicas sampleConsts (by decide) (by decide) [['o', '$'], ['-', 'M']] 2 2
      (by decide)⟩

/-- The rewrite of `o` is what keeps the player single: for a header whose
player marker is not the character `o` (in particular one whose open tile is
`o`), `resizeMap` copies the marker into the top right quadrant as well. -/
theorem resizeMap_marker_copied (k : Consts) (hne : k.TILE_PLAYER ≠ 'o') (map : Grid)
    (maxRow maxCol : Int) (player : Player) (hmap : Rect maxRow maxCol map)
    (hmark : readCell map player.row player.col = some k.TILE_PLAYER) :
    ∃ nm, resizeMap k map maxRow maxCol = some (nm, maxRow * 2, maxCol * 2) ∧
      readCell nm player.row player.col = some k.TILE_PLAYER ∧
      readCell nm player.row (player.col + maxCol) = some k.TILE_PLAYER := by
  obtain ⟨nm, h1, _, h3⟩ := resizeMap_cells k map maxRow maxCol hmap
  obtain ⟨p1, p2, p3, p4⟩ := (readCell_isSome_iff hmap _ _).1 (by rw [hmark]; rfl)
  have a2 : player.col + maxCol - maxCol = player.col := by omega
  have hno : ¬ (some k.TILE_PLAYER = some 'o') := fun e => hne (Option.some.inj e)
  refine ⟨nm, h1, ?_, ?_⟩
  · rw [h3 _ _ ⟨p1, by omega, p3, by omega⟩, if_pos ⟨p2, p4⟩]
    exact hmark
  · rw [h3 _ _ ⟨p1, by omega, by omega, by omega⟩, if_neg (by omega), if_pos p2,
      if_neg (by omega : ¬ player.col + maxCol < maxCol), a2, hmark, if_neg hno]

/-! ## Every outcome of doPlayerMove -/

/-- The branches of `doPlayerMove`.  In a rectangular map with the player in
bounds the call returns; the candidate is not modified; no cell other than the
player's cell and the target is written; and the result is that of exactly one
branch of the source, listed with its status and its effect on the player;
the map stays rectangular and the player in bounds. -/
theorem doPlayerMove_branches (k : Consts) (map : Grid) (maxRow maxCol : Int)
    (player : Player) (nextRow nextCol : Int) (hrect : Rect maxRow maxCol map)
    (hp : InBounds maxRow maxCol player.row player.col) :
    ∃ res, doPlayerMove k map maxRow maxCol player nextRow nextCol = some res ∧
      res.nextRow = nextRow ∧ res.nextCol = nextCol ∧
      Rect maxRow maxCol res.map ∧ InBounds maxRow maxCol res.player.row res.player.col ∧
      (∀ r c, ¬ (r = player.row ∧ c = player.col) → ¬ (r = nextRow ∧ c = nextCol) →
        readCell res.map r c = readCell map r c) ∧
      ((res.status = k.STATUS_STAY ∧ res.player = player ∧ res.map = map ∧
          (¬ InBounds maxRow maxCol nextRow nextCol ∨
            readCell map nextRow nextCol = some k.TILE_PILLAR ∨
            readCell map nextRow nextCol = some k.TILE_MONSTER ∨
            (readCell map nextRow nextCol = some k.TILE_EXIT ∧ player.treasure < 1))) ∨
        (res.status = k.STATUS_TREASURE ∧
          res.player = ⟨nextRow, nextCol, wrapInt (player.treasure + 1)⟩ ∧
          readCell map nextRow nextCol = some k.TILE_TREASURE) ∨
        (res.status = k.STATUS_AMULET ∧ res.player = ⟨nextRow, nextCol, player.treasure⟩ ∧
          readCell map nextRow nextCol = some k.TILE_AMULET) ∨
        (res.status = k.STATUS_LEAVE ∧ res.player = ⟨nextRow, nextCol, player.treasure⟩ ∧
          readCell map nextRow nextCol = some k.TILE_DOOR) ∨
        (res.status = k.STATUS_ESCAPE ∧ res.player = ⟨nextRow, nextCol, player.treasure⟩ ∧
          readCell map nextRow nextCol = some k.TILE_EXIT) ∨
        (res.status = k.STATUS_MOVE ∧ res.player = ⟨nextRow, nextCol, player.treasure⟩) ∨
        (res.status = -1 ∧ res.player = player ∧ k.TILE_OPEN = Char.ofNat 0)) := by
  have hp1 : (readCell map player.row player.col).isSome := (readCell_isSome_iff hrect _ _).2 hp
  generalize hreason : (¬ InBounds maxRow maxCol nextRow nextCol ∨
      readCell map nextRow nextCol = some k.TILE_PILLAR ∨
      readCell map nextRow nextCol = some k.TILE_MONSTER ∨
      (readCell map nextRow nextCol = some k.TILE_EXIT ∧ player.treasure < 1)) = reason
  generalize hT : (readCell map nextRow nextCol = some k.TILE_TREASURE) = isTreasure
  generalize hA : (readCell map nextRow nextCol = some k.TILE_AMULET) = isAmulet
  generalize hD : (readCell map nextRow nextCol = some k.TILE_DOOR) = isDoor
  generalize hE : (readCell map nextRow nextCol = some k.TILE_EXIT) = isExit
  have blocked : reason →
      ∃ res, some (⟨map, player, nextRow, nextCol, k.STATUS_STAY⟩ : MoveResult) = some res ∧
      res.nextRow = nextRow ∧ res.nextCol = nextCol ∧
      Rect maxRow maxCol res.map ∧ InBounds maxRow maxCol res.player.row res.player.col ∧
      (∀ r c, ¬ (r = player.row ∧ c = player.col) → ¬ (r = nextRow ∧ c = nextCol) →
        readCell res.map r c = readCell map r c) ∧
      ((res.status = k.STATUS_STAY ∧ res.player = player ∧ res.map = map ∧ reason) ∨
        (res.status = k.STATUS_TREASURE ∧
          res.player = ⟨nextRow, nextCol, wrapInt (player.treasure + 1)⟩ ∧ isTreasure) ∨
        (res.status = k.STATUS_AMULET ∧ res.player = ⟨nextRow, nextCol, player.treasure⟩ ∧
          isAmulet) ∨
        (res.status = k.STATUS_LEAVE ∧ res.player = ⟨nextRow, nextCol, player.treasure⟩ ∧
          isDoor) ∨
        (res.status = k.STATUS_ESCAPE ∧ res.player = ⟨nextRow, nextCol, player.treasure⟩ ∧
          isExit) ∨
        (res.status = k.STATUS_MOVE ∧ res.player = ⟨nextRow, nextCol, player.treasure⟩) ∨
        (res.status = -1 ∧ res.player = player ∧ k.TILE_OPEN = Char.ofNat 0)) :=
    fun hr => ⟨_, rfl, rfl, rfl, hrect, hp, fun _ _ _ _ => rfl, Or.inl ⟨rfl, rfl, rfl, hr⟩⟩
  unfold doPlayerMove
  by_cases h1 : nextRow ≥ maxRow ∨ nextCol ≥ maxCol
  · rw [if_pos h1]
    exact blocked (hreason ▸ Or.inl (by unfold InBounds; omega))
  rw [if_neg h1]
  by_cases h2 : nextRow < 0 ∨ nextCol < 0
  · rw [if_pos h2]
    exact blocked (hreason ▸ Or.inl (by unfold InBounds; omega))
  rw [if_neg h2]
  have hn : InBounds maxRow maxCol nextRow nextCol := by unfold InBounds; omega
  have hn1 : (readCell map nextRow nextCol).isSome := (readCell_isSome_iff hrect _ _).2 hn
  obtain ⟨t, ht⟩ := Option.isSome_iff_exists.mp hn1
  simp only [ht]
  have frame : ∀ (m0 m2 : Grid),
      (∀ r c, ¬ (r = nextRow ∧ c = nextCol) → readCell m0 r c = readCell map r c) →
      (∀ r c, readCell m2 r c =
        if r = nextRow ∧ c = nextCol then some k.TILE_PLAYER
        else if r = player.row ∧ c = player.col then some k.TILE_OPEN
        else readCell m0 r c) →
      ∀ r c, ¬ (r = player.row ∧ c = player.col) → ¬ (r = nextRow ∧ c = nextCol) →
        readCell m2 r c = readCell map r c := by
    intro m0 m2 h0 hread r c n1 n2
    rw [hread, if_neg n2, if_neg n1, h0 r c n2]
  by_cases c1 : t = k.TILE_PILLAR ∨ t = k.TILE_MONSTER
  · rw [if_pos c1]
    apply blocked
    rw [← hreason]
    rcases c1 with c1 | c1
    · exact Or.inr (Or.inl (by rw [ht, c1]))
    · exact Or.inr (Or.inr (Or.inl (by rw [ht, c1])))
  rw [if_neg c1]
  by_cases c2 : t = k.TILE_TREASURE
  · rw [if_pos c2]
    obtain ⟨m2, e2, hread⟩ := stepOnto_spec k map
      ⟨player.row, player.col, wrapInt (player.treasure + 1)⟩
      nextRow nextCol k.STATUS_TREASURE hp1 hn1
    exact ⟨_, e2, rfl, rfl, stepOnto_rect hrect e2, hn, frame map m2 (fun _ _ _ => rfl) hread, Or.inr (Or.inl ⟨rfl, rfl, hT ▸ (by rw [ht, c2])⟩)⟩
  rw [if_neg c2]
  by_cases c3 : t = k.TILE_AMULET
  · rw [if_pos c3]
    obtain ⟨m2, e2, hread⟩ := stepOnto_spec k map player nextRow nextCol k.STATUS_AMULET hp1 hn1
    exact ⟨_, e2, rfl, rfl, stepOnto_rect hrect e2, hn, frame map m2 (fun _ _ _ => rfl) hread,
      Or.inr (Or.inr (Or.inl ⟨rfl, rfl, hA ▸ (by rw [ht, c3])⟩))⟩
  rw [if_neg c3]
  by_cases c4 : t = k.TILE_DOOR
  · rw [if_pos c4]
    obtain ⟨m2, e2, hread⟩ := stepOnto_spec k map player nextRow nextCol k.STATUS_LEAVE hp1 hn1
    exact ⟨_, e2, rfl, rfl, stepOnto_rect hrect e2, hn, frame map m2 (fun _ _ _ => rfl) hread,
      Or.inr (Or.inr (Or.inr (Or.inl ⟨rfl, rfl, hD ▸ (by rw [ht, c4])⟩)))⟩
  rw [if_neg c4]
  by_cases c5 : t = k.TILE_EXIT
  · rw [if_pos c5]
    by_cases c6 : player.treasure < 1
    · rw [if_pos c6]
      exact blocked (hreason ▸ Or.inr (Or.inr (Or.inr ⟨by rw [ht, c5], c6⟩)))
    · rw [if_neg c6]
      obtain ⟨m2, e2, hread⟩ := stepOnto_spec k map player nextRow nextCol k.STATUS_ESCAPE
        hp1 hn1
      exact ⟨_, e2, rfl, rfl, stepOnto_rect hrect e2, hn, frame map m2 (fun _ _ _ => rfl) hread,
        Or.inr (Or.inr (Or.inr (Or.inr (Or.inl ⟨rfl, rfl, hE ▸ (by rw [ht, c5])⟩))))⟩
  rw [if_neg c5]
  obtain ⟨m0, h0⟩ := writeCell_isSome k.TILE_OPEN hn1
  simp only [h0]
  have hm0 : ∀ r c, ¬ (r = nextRow ∧ c = nextCol) → readCell m0 r c = readCell map r c := by
    intro r c n2
    rw [readCell_writeCell h0, if_neg n2]
  by_cases c7 : k.TILE_OPEN ≠ Char.ofNat 0
  · rw [if_pos c7]
    obtain ⟨m2, e2, hread⟩ := stepOnto_spec k m0 player nextRow nextCol k.STATUS_MOVE
      (by rw [writeCell_shape h0]; exact hp1) (by rw [writeCell_shape h0]; exact hn1)
    exact ⟨_, e2, rfl, rfl, stepOnto_rect (writeCell_rect hrect h0) e2, hn, frame m0 m2 hm0 hread,
      Or.inr (Or.inr (Or.inr (Or.inr (Or.inr (Or.inl ⟨rfl, rfl⟩)))))⟩
  · rw [if_neg c7]
    exact ⟨_, rfl, rfl, rfl, writeCell_rect hrect h0, hp, fun r c _ n2 => hm0 r c n2,
      Or.inr (Or.inr (Or.inr (Or.inr (Or.inr (Or.inr ⟨rfl, rfl, not_not.mp c7⟩)))))⟩

theorem Consts.StatusWF.ne_minus_one {k : Consts} (hs : k.StatusWF) :
    k.STATUS_STAY ≠ -1 ∧ k.STATUS_MOVE ≠ -1 ∧ k.STATUS_TREASURE ≠ -1 ∧ k.STATUS_AMULET ≠ -1 ∧
    k.STATUS_LEAVE ≠ -1 ∧ k.STATUS_ESCAPE ≠ -1 := by
  unfold Consts.StatusWF at hs
  simp only [List.nodup_cons, List.mem_cons, List.mem_singleton, not_or, List.not_mem_nil,
    not_false_eq_true, List.nodup_nil, and_true] at hs
  tauto

theorem Consts.StatusWF.ne_treasure {k : Consts} (hs : k.StatusWF) :
    k.STATUS_STAY ≠ k.STATUS_TREASURE ∧ k.STATUS_MOVE ≠ k.STATUS_TREASURE ∧
    k.STATUS_AMULET ≠ k.STATUS_TREASURE ∧ k.STATUS_LEAVE ≠ k.STATUS_TREASURE ∧
    k.STATUS_ESCAPE ≠ k.STATUS_TREASURE ∧ (-1 : Int) ≠ k.STATUS_TREASURE := by
  unfold Consts.StatusWF at hs
  simp only [List.nodup_cons, List.mem_cons, List.mem_singleton, not_or, List.not_mem_nil,
    not_false_eq_true, List.nodup_nil, and_true] at hs
  obtain ⟨⟨_, a2, _⟩, ⟨b2, _⟩, ⟨c3, c4, c5, c6⟩, _⟩ := hs
  exact ⟨a2, b2, Ne.symm c3, Ne.symm c4, Ne.symm c5, Ne.symm c6⟩

/-- Claim C14, the claim as stated fails when the treasure counter is at
2147483647, the largest `int`: picking up the treasure at (0,1) returns
`STATUS_TREASURE` and leaves the counter at -2147483648, which is less than
before and not one more. -/
theorem playMoves_treasure_wraps :
    sampleConsts.StatusWF ∧ Rect 1 2 [['o', '$']] ∧ InBounds 1 2 0 0 ∧
    playMoves sampleConsts 1 2 [['o', '$']] ⟨0, 0, 2147483647⟩ [(0, 1)] =
      some [⟨[['-', 'o']], ⟨0, 1, -2147483648⟩, 0, 1, sampleConsts.STATUS_TREASURE⟩] ∧
    ¬ ((2147483647 : Int) ≤ -2147483648) ∧
    ¬ TreasureSteps sampleConsts 2147483647
      [⟨[['-', 'o']], ⟨0, 1, -2147483648⟩, 0, 1, sampleConsts.STATUS_TREASURE⟩] := by
  decide

/-- Claim C14 (amended): treasure monotonicity of an `int` counter.  With pairwise
different status codes, in a rectangular map with the player in bounds and the
treasure count an `int` value, every finite sequence of `doPlayerMove` calls
with arbitrary candidates returns, and along it: the count after a call that
was entered with the count below 2147483647 is at least the count before, and
exactly one more when the call returned `STATUS_TREASURE`; the count after a
call that returned any other value is exactly the same.  In particular, when
the initial count plus the number of calls does not exceed 2147483647, the
count after each call is at least the count before, exactly one more on
`STATUS_TREASURE` and the same otherwise. -/
theorem playMoves_treasure (k : Consts) (hs : k.StatusWF) (maxRow maxCol : Int)
    (moves : List (Int × Int)) (map : Grid) (player : Player)
    (hrect : Rect maxRow maxCol map)
    (hp : InBounds maxRow maxCol player.row player.col)
    (hlo : -2147483648 ≤ player.treasure) (hhi : player.treasure ≤ 2147483647) :
    ∃ results, playMoves k maxRow maxCol map player moves = some results ∧
      results.length = moves.length ∧
      TreasureStepsInt k player.treasure results ∧
      (player.treasure + moves.length ≤ 2147483647 →
        TreasureSteps k player.treasure results) := by
  have hne := hs.ne_treasure
  induction moves generalizing map player with
  | nil => exact ⟨[], rfl, rfl, trivial, fun _ => trivial⟩
  | cons cand rest ih =>
    obtain ⟨res, hres, _, _, hr, hb, _, hbranch⟩ :=
      doPlayerMove_branches k map maxRow maxCol player cand.1 cand.2 hrect hp
    have hstep : (-2147483648 ≤ res.player.treasure ∧ res.player.treasure ≤ 2147483647) ∧
        (player.treasure < 2147483647 → player.treasure ≤ res.player.treasure) ∧
        (player.treasure < 2147483647 → res.status = k.STATUS_TREASURE →
          res.player.treasure = player.treasure + 1) ∧
        (res.status ≠ k.STATUS_TREASURE → res.player.treasure = player.treasure) ∧
        (player.treasure < 2147483647 → res.player.treasure ≤ player.treasure + 1) := by
      rcases hbranch with ⟨e1, e2, _⟩ | ⟨e1, e2, _⟩ | ⟨e1, e2, _⟩ | ⟨e1, e2, _⟩ | ⟨e1, e2, _⟩ |
        ⟨e1, e2⟩ | ⟨e1, e2, _⟩
      · rw [e1, e2]
        exact ⟨⟨hlo, hhi⟩, fun _ => le_refl _, fun _ h => absurd h hne.1, fun _ => rfl,
          fun _ => by omega⟩
      · rw [e1, e2]
        have hw : player.treasure < 2147483647 →
            wrapInt (player.treasure + 1) = player.treasure + 1 :=
          fun h => wrapInt_of_range (by omega) (by omega)
        refine ⟨wrapInt_range _, fun h => ?_, fun h _ => ?_, fun h => absurd rfl h,
          fun h => ?_⟩
        · show player.treasure ≤ wrapInt (player.treasure + 1)
          rw [hw h]; omega
        · exact hw h
        · show wrapInt (player.treasure + 1) ≤ player.treasure + 1
          rw [hw h]
      · rw [e1, e2]
        exact ⟨⟨hlo, hhi⟩, fun _ => le_refl _, fun _ h => absurd h hne.2.2.1, fun _ => rfl,
          fun _ => by simp⟩
      · rw [e1, e2]
        exact ⟨⟨hlo, hhi⟩, fun _ => le_refl _, fun _ h => absurd h hne.2.2.2.1, fun _ => rfl,
          fun _ => by simp⟩
      · rw [e1, e2]
        exact ⟨⟨hlo, hhi⟩, fun _ => le_refl _, fun _ h => absurd h hne.2.2.2.2.1, fun _ => rfl,
          fun _ => by simp⟩
      · rw [e1, e2]
        exact ⟨⟨hlo, hhi⟩, fun _ => le_refl _, fun _ h => absurd h hne.2.1, fun _ => rfl,
          fun _ => by simp⟩
      · rw [e1, e2]
        exact ⟨⟨hlo, hhi⟩, fun _ => le_refl _, fun _ h => absurd h hne.2.2.2.2.2, fun _ => rfl,
          fun _ => by omega⟩
    obtain ⟨⟨hlo2, hhi2⟩, h1, h2, h3, h4⟩ := hstep
    obtain ⟨results, hrun, hlen, hsteps, hexact⟩ := ih res.map res.player hr hb hlo2 hhi2
    refine ⟨res :: results, by simp [playMoves, hres, hrun], by simp [hlen],
      ⟨h1, h2, h3, hsteps⟩, ?_⟩
    intro hbound
    simp only [List.length_cons, Nat.cast_add, Nat.cast_one] at hbound
    have hlt : player.treasure < 2147483647 := by omega
    have h4b := h4 hlt
    exact ⟨h1 hlt, h2 hlt, h3, hexact (by omega)⟩

/-- An instance of C14 (amended): the player picks up a treasure, steps onto an
open tile and is then blocked by the right edge of a 1x3 map. -/
theorem playMoves_treasure_witness :
    (sampleConsts.StatusWF ∧ Rect 1 3 [['o', '$', '-']] ∧ InBounds 1 3 0 0 ∧
      (-2147483648 : Int) ≤ 0 ∧ (0 : Int) ≤ 2147483647) ∧
    ∃ results, playMoves sampleConsts 1 3 [['o', '$', '-']] ⟨0, 0, 0⟩
        [(0, 1), (0, 2), (0, 3)] = some results ∧
      results.length = [((0 : Int), (1 : Int)), (0, 2), (0, 3)].length ∧
      TreasureStepsInt sampleConsts 0 results ∧
      ((0 : Int) + ([((0 : Int), (1 : Int)), (0, 2), (0, 3)].length : Nat) ≤ 2147483647 →
        TreasureSteps sampleConsts 0 results) :=
  ⟨⟨by decide, by decide, by decide, by decide, by decide⟩,
    playMoves_treasure sampleConsts (by decide) 1 3 [(0, 1), (0, 2), (0, 3)]
      [['o', '$', '-']] ⟨0, 0, 0⟩ (by decide) (by decide) (by decide) (by decide)⟩

/-- Claim C15: every move has a defined outcome.  With well-formed header
constants, in a rectangular map with the player in bounds, `doPlayerMove` with
any candidate returns one of `STATUS_STAY`, `STATUS_MOVE`, `STATUS_TREASURE`,
`STATUS_AMULET`, `STATUS_LEAVE`, `STATUS_ESCAPE`, never -1; and an in-bounds
target holding a tile other than pillar, monster, treasure, amulet, door and
exit gives `STATUS_MOVE`. -/
theorem doPlayerMove_status (k : Consts) (hk : k.WF) (hs : k.StatusWF) (map : Grid)
    (maxRow maxCol : Int) (player : Player) (nextRow nextCol : Int)
    (hrect : Rect maxRow maxCol map)
    (hp : InBounds maxRow maxCol player.row player.col) :
    ∃ res, doPlayerMove k map maxRow maxCol player nextRow nextCol = some res ∧
      (res.status = k.STATUS_STAY ∨ res.status = k.STATUS_MOVE ∨
        res.status = k.STATUS_TREASURE ∨ res.status = k.STATUS_AMULET ∨
        res.status = k.STATUS_LEAVE ∨ res.status = k.STATUS_ESCAPE) ∧
      res.status ≠ -1 ∧
      (∀ t, InBounds maxRow maxCol nextRow nextCol →
        readCell map nextRow nextCol = some t →
        t ≠ k.TILE_PILLAR → t ≠ k.TILE_MONSTER → t ≠ k.TILE_TREASURE → t ≠ k.TILE_AMULET →
        t ≠ k.TILE_DOOR → t ≠ k.TILE_EXIT → res.status = k.STATUS_MOVE) := by
  have hm := hs.ne_minus_one
  obtain ⟨res, hres, _, _, _, _, _, hbranch⟩ :=
    doPlayerMove_branches k map maxRow maxCol player nextRow nextCol hrect hp
  refine ⟨res, hres, ?_⟩
  rcases hbranch with ⟨e1, _, _, hr⟩ | ⟨e1, _, ht⟩ | ⟨e1, _, ht⟩ | ⟨e1, _, ht⟩ | ⟨e1, _, ht⟩ |
    ⟨e1, _⟩ | ⟨_, _, e3⟩
  · refine ⟨Or.inl e1, by rw [e1]; exact hm.1, ?_⟩
    intro t hin hrd n1 n2 _ _ _ n6
    rcases hr with hr | hr | hr | ⟨hr, _⟩
    · exact absurd hin hr
    · rw [hrd] at hr; exact absurd (Option.some.inj hr) n1
    · rw [hrd] at hr; exact absurd (Option.some.inj hr) n2
    · rw [hrd] at hr; exact absurd (Option.some.inj hr) n6
  · refine ⟨Or.inr (Or.inr (Or.inl e1)), by rw [e1]; exact hm.2.2.1, ?_⟩
    intro t _ hrd _ _ n3 _ _ _
    rw [hrd] at ht; exact absurd (Option.some.inj ht) n3
  · refine ⟨Or.inr (Or.inr (Or.inr (Or.inl e1))), by rw [e1]; exact hm.2.2.2.1, ?_⟩
    intro t _ hrd _ _ _ n4 _ _
    rw [hrd] at ht; exact absurd (Option.some.inj ht) n4
  · refine ⟨Or.inr (Or.inr (Or.inr (Or.inr (Or.inl e1)))), by rw [e1]; exact hm.2.2.2.2.1, ?_⟩
    intro t _ hrd _ _ _ _ n5 _
    rw [hrd] at ht; exact absurd (Option.some.inj ht) n5
  · refine ⟨Or.inr (Or.inr (Or.inr (Or.inr (Or.inr e1)))), by rw [e1]; exact hm.2.2.2.2.2, ?_⟩
    intro t _ hrd _ _ _ _ _ n6
    rw [hrd] at ht; exact absurd (Option.some.inj ht) n6
  · exact ⟨Or.inr (Or.inl e1), by rw [e1]; exact hm.2.1, fun _ _ _ _ _ _ _ _ _ => e1⟩
  · exact absurd e3 hk.2

/-- An instance of C15: the candidate is the player's own cell, which holds
the player marker, a tile outside the six tested ones. -/
theorem doPlayerMove_status_witness :
    (sampleConsts.WF ∧ sampleConsts.StatusWF ∧ Rect 1 2 [['o', '-']] ∧ InBounds 1 2 0 0) ∧
    ∃ res, doPlayerMove sampleConsts [['o', '-']] 1 2 ⟨0, 0, 0⟩ 0 0 = some res ∧
      (res.status = sampleConsts.STATUS_STAY ∨ res.status = sampleConsts.STATUS_MOVE ∨
        res.status = sampleConsts.STATUS_TREASURE ∨ res.status = sampleConsts.STATUS_AMULET ∨
        res.status = sampleConsts.STATUS_LEAVE ∨ res.status = sampleConsts.STATUS_ESCAPE) ∧
      res.status ≠ -1 ∧
      (∀ t, InBounds 1 2 0 0 → readCell [['o', '-']] 0 0 = some t →
        t ≠ sampleConsts.TILE_PILLAR → t ≠ sampleConsts.TILE_MONSTER →
        t ≠ sampleConsts.TILE_TREASURE → t ≠ sampleConsts.TILE_AMULET →
        t ≠ sampleConsts.TILE_DOOR → t ≠ sampleConsts.TILE_EXIT →
        res.status = sampleConsts.STATUS_MOVE) :=
  ⟨⟨by decide, by decide, by decide, by decide⟩,
    doPlayerMove_status sampleConsts (by decide) (by decide) [['o', '-']] 1 2 ⟨0, 0, 0⟩ 0 0
      (by decide) (by decide)⟩

/-- Claim C16: `createMap` yields an all-open map.  For `maxRow >= 1` and
`maxCol >= 1` the call returns a map with exactly `maxRow` rows of exactly
`maxCol` cells each, and every cell holds `TILE_OPEN`. -/
theorem createMap_all_open (k : Consts) (maxRow maxCol : Int) (hR : 1 ≤ maxRow)
    (hC : 1 ≤ maxCol) :
    ∃ ary, createMap k maxRow maxCol = some ary ∧ Rect maxRow maxCol ary ∧
      ∀ r c, InBounds maxRow maxCol r c → readCell ary r c = some k.TILE_OPEN :=
  createMap_spec k maxRow maxCol (by omega) (by omega)

/-- An instance of C16: a 2x3 map. -/
theorem createMap_all_open_witness :
    ((1 : Int) ≤ 2 ∧ (1 : Int) ≤ 3) ∧
    ∃ ary, createMap sampleConsts 2 3 = some ary ∧ Rect 2 3 ary ∧
      ∀ r c, InBounds 2 3 r c → readCell ary r c = some sampleConsts.TILE_OPEN :=
  ⟨⟨by decide, by decide⟩, createMap_all_open sampleConsts 2 3 (by decide) (by decide)⟩

/-- Claim C19: frame of a move.  In a rectangular map with the player in bounds,
`doPlayerMove` with any candidate returns, leaves `nextRow` and `nextCol` as
they were, and every cell other than the player's cell before the call and the
cell `(nextRow, nextCol)` holds the same tile as before. -/
theorem doPlayerMove_frame (k : Consts) (map : Grid) (maxRow maxCol : Int)
    (player : Player) (nextRow nextCol : Int) (hrect : Rect maxRow maxCol map)
    (hp : InBounds maxRow maxCol player.row player.col) :
    ∃ res, doPlayerMove k map maxRow maxCol player nextRow nextCol = some res ∧
      res.nextRow = nextRow ∧ res.nextCol = nextCol ∧
      ∀ r c, ¬ (r = player.row ∧ c = player.col) → ¬ (r = nextRow ∧ c = nextCol) →
        readCell res.map r c = readCell map r c := by
  obtain ⟨res, hres, h1, h2, _, _, hframe, _⟩ :=
    doPlayerMove_branches k map maxRow maxCol player nextRow nextCol hrect hp
  exact ⟨res, hres, h1, h2, hframe⟩

/-- An instance of C19: the player at (0,0) of a 2x2 map steps right onto a
treasure. -/
theorem doPlayerMove_frame_witness :
    (Rect 2 2 [['o', '$'], ['-', 'M']] ∧ InBounds 2 2 0 0) ∧
    ∃ res, doPlayerMove sampleConsts [['o', '$'], ['-', 'M']] 2 2 ⟨0, 0, 0⟩ 0 1 = some res ∧
      res.nextRow = 0 ∧ res.nextCol = 1 ∧
      ∀ r c, ¬ (r = 0 ∧ c = 0) → ¬ (r = 0 ∧ c = 1) →
        readCell res.map r c = readCell [['o', '$'], ['-', 'M']] r c :=
  ⟨⟨by decide, by decide⟩,
    doPlayerMove_frame sampleConsts [['o', '$'], ['-', 'M']] 2 2 ⟨0, 0, 0⟩ 0 1
      (by decide) (by decide)⟩

/-! ## Counting monsters -/

/-- Claim C17 at a failing instance: 2x1 map, player at (0,0), a monster directly
below at (1,0).  The downward scan moves the monster onto the player's cell;
the leftward scan starts at `i = player.col = 0`, finds it there and writes
`TILE_MONSTER` to `map[0][i + 1] = map[0][1]`, outside the single column of the
map.  The embedding has no result for the call. -/
theorem doMonsterAttack_writes_outside :
    sampleConsts.WF ∧ Rect 2 1 [['o'], ['M']] ∧ InBounds 2 1 0 0 ∧
    MarkerAt sampleConsts [['o'], ['M']] ⟨0, 0, 0⟩ ∧
    scanUp sampleConsts ⟨0, 0, 0⟩ [['o'], ['M']] = some [['o'], ['M']] ∧
    scanDown sampleConsts 2 ⟨0, 0, 0⟩ [['o'], ['M']] = some [['M'], ['-']] ∧
    readCell [['M'], ['-']] 0 0 = some sampleConsts.TILE_MONSTER ∧
    ¬ InBounds 2 1 0 (0 + 1) ∧
    writeCell [['-'], ['-']] 0 (0 + 1) sampleConsts.TILE_MONSTER = none ∧
    scanCell sampleConsts 0 0 0 (0 + 1) [['M'], ['-']] = none ∧
    doMonsterAttack sampleConsts [['o'], ['M']] 2 1 ⟨0, 0, 0⟩ = none := by
  decide

/-- Why the frame theorem below takes the player's own cell not to hold a
monster: every scan starts on that cell, so a monster standing there is moved
one cell away from it, and in the 1x1 map the upward scan writes `map[1][0]`,
outside the grid. -/
theorem doMonsterAttack_monster_on_player_leaves_grid :
    Rect 1 1 [['M']] ∧ InBounds 1 1 0 0 ∧ ¬ InBounds 1 1 (0 + 1) 0 ∧
    scanCell sampleConsts 0 0 (0 + 1) 0 [['M']] = none ∧
    doMonsterAttack sampleConsts [['M']] 1 1 ⟨0, 0, 0⟩ = none := by
  decide

end Dungeon
